import Mathlib

/-!
Verification development for the `nbt-serde` NBT codec
(src/nbt-serde/src: kind.rs, error.rs, encode.rs, decode.rs).

The Rust source is shallowly embedded: bytes are `Nat` values below 256,
byte streams are `List Nat`, Rust strings are their UTF-8 byte lists,
machine integers are `Int` with explicit two's-complement reduction at the
points where the source casts or writes them, and the serde-driven
traversals are made explicit over a host-value tree (`HostValue`).
Rust panics (`panic!`, `unwrap`, `unimplemented!`, `unreachable!`) are a
distinct `panic` outcome of the encoder, separate from `Result::Err`.
-/

namespace NbtSerde

/-- `Kind` from src/nbt-serde/src/kind.rs: the 13 NBT tag identifiers. -/
inductive Kind
  | End
  | I8
  | I16
  | I32
  | I64
  | F32
  | F64
  | I8Array
  | String
  | List
  | Compound
  | I32Array
  | I64Array
deriving DecidableEq, Repr

/-- `Kind::from_id` (kind.rs): total over `i8`, `none` outside 0..=12. -/
def Kind.from_id (id : Int) : Option Kind :=
  if id = 0 then some .End
  else if id = 1 then some .I8
  else if id = 2 then some .I16
  else if id = 3 then some .I32
  else if id = 4 then some .I64
  else if id = 5 then some .F32
  else if id = 6 then some .F64
  else if id = 7 then some .I8Array
  else if id = 8 then some .String
  else if id = 9 then some .List
  else if id = 10 then some .Compound
  else if id = 11 then some .I32Array
  else if id = 12 then some .I64Array
  else none

/-- `Kind::to_id` (kind.rs): the discriminant, in declaration order. -/
def Kind.to_id : Kind → Int
  | .End => 0
  | .I8 => 1
  | .I16 => 2
  | .I32 => 3
  | .I64 => 4
  | .F32 => 5
  | .F64 => 6
  | .I8Array => 7
  | .String => 8
  | .List => 9
  | .Compound => 10
  | .I32Array => 11
  | .I64Array => 12

/-- `Kind::list_container` (kind.rs). -/
def Kind.list_container : Kind → Kind
  | .I8 => .I8Array
  | .I32 => .I32Array
  | .I64 => .I64Array
  | _ => .List

/-- `Kind::is_list` (kind.rs). -/
def Kind.is_list : Kind → Bool
  | .List => true
  | .I8Array => true
  | .I32Array => true
  | .I64Array => true
  | _ => false

/-- The `io::ErrorKind` values relevant to the embedding: `UnexpectedEof`
is the one `From<io::Error> for Error` (error.rs) singles out. -/
inductive IoErrorKind
  | NotFound
  | PermissionDenied
  | BrokenPipe
  | UnexpectedEof
  | TimedOut
  | Interrupted
  | Other
deriving DecidableEq, Repr

/-- `Error` from src/nbt-serde/src/error.rs, together with the
`HeterogenousList` variant that encode.rs constructs (error.rs carries a
`TODO: HeterogenousList` comment; the usage sites in encode.rs fix its
shape, and decode.rs applies `UnexpectedTag` to two `Kind`s). -/
inductive Error
  | Io (kind : IoErrorKind)
  | Serde (msg : String)
  | NoRootCompound
  | UnknownTag (t : Nat)
  | NonBooleanByte (b : Int)
  | UnexpectedTag (actual expected : Kind)
  | UnrepresentableType (t : String)
  | InvalidUtf8
  | IncompleteNbtValue
  | HeterogenousList (original newKind : Kind)
deriving DecidableEq, Repr

/-- `From<io::Error> for Error` (error.rs lines 51-59): `UnexpectedEof`
becomes the distinct `IncompleteNbtValue`; every other kind stays `Io`. -/
def Error.fromIo (k : IoErrorKind) : Error :=
  if k = IoErrorKind.UnexpectedEof then .IncompleteNbtValue else .Io k

/-! ## Bare-value codec: big-endian fixed-width numbers and bare strings -/

/-- Big-endian bytes of `n`, `w` bytes wide (the value is reduced mod
`256 ^ w`, as the byteorder writers do for each fixed width). -/
def natBytesBE : (w : Nat) → Nat → List Nat
  | 0, _ => []
  | w + 1, n => (n / 256 ^ w % 256) :: natBytesBE w n

/-- Big-endian value of a byte list. -/
def beVal (bytes : List Nat) : Nat :=
  bytes.foldl (fun acc b => acc * 256 + b) 0

/-- Two's-complement byte image of a signed `w`-byte integer. -/
def intBytesBE (w : Nat) (v : Int) : List Nat :=
  natBytesBE w (v % ((256 : Int) ^ w)).toNat

/-- Reinterpret a `w`-byte unsigned value as signed two's complement. -/
def toSigned (w : Nat) (n : Nat) : Int :=
  if n < 256 ^ w / 2 then (n : Int) else (n : Int) - (256 : Int) ^ w

@[simp] theorem natBytesBE_length (w n : Nat) : (natBytesBE w n).length = w := by
  induction w generalizing n with
  | zero => rfl
  | succ w ih => simp [natBytesBE, ih]

theorem beVal_foldl_natBytesBE (w n acc : Nat) :
    (natBytesBE w n).foldl (fun acc b => acc * 256 + b) acc
      = acc * 256 ^ w + n % 256 ^ w := by
  induction w generalizing acc with
  | zero => simp [natBytesBE, Nat.mod_one]
  | succ w ih =>
    have h256 : (0 : Nat) < 256 ^ w := Nat.pos_pow_of_pos w (by decide)
    simp only [natBytesBE, List.foldl_cons, ih]
    have hmod : n % (256 ^ w * 256) = n % 256 ^ w + 256 ^ w * (n / 256 ^ w % 256) :=
      Nat.mod_mul
    have hpow : (256 : Nat) ^ (w + 1) = 256 ^ w * 256 := by ring
    rw [hpow, hmod]
    ring

@[simp] theorem beVal_natBytesBE (w n : Nat) :
    beVal (natBytesBE w n) = n % 256 ^ w := by
  simpa using beVal_foldl_natBytesBE w n 0

/-- `write_bare_string` (encode.rs lines 50-54): a 2-byte big-endian length
(`value.len() as u16`, i.e. reduced mod 65536) followed by the raw bytes. -/
def write_bare_string (s : List Nat) : List Nat :=
  natBytesBE 2 s.length ++ s

/-- A UTF-8 continuation byte (`0x80..=0xBF`). -/
def isCont (b : Nat) : Bool :=
  decide (128 ≤ b ∧ b ≤ 191)

/-- The strict UTF-8 validity check performed by `String::from_utf8`
(decode.rs `read_bare_string`): rejects overlong forms, surrogates and
code points above `0x10FFFF`. -/
def validUtf8 : List Nat → Bool
  | [] => true
  | b :: rest =>
    if b ≤ 0x7F then validUtf8 rest
    else if 0xC2 ≤ b ∧ b ≤ 0xDF then
      match rest with
      | c1 :: r => isCont c1 && validUtf8 r
      | [] => false
    else if b = 0xE0 then
      match rest with
      | c1 :: c2 :: r => decide (0xA0 ≤ c1 ∧ c1 ≤ 0xBF) && isCont c2 && validUtf8 r
      | _ => false
    else if (0xE1 ≤ b ∧ b ≤ 0xEC) ∨ (0xEE ≤ b ∧ b ≤ 0xEF) then
      match rest with
      | c1 :: c2 :: r => isCont c1 && isCont c2 && validUtf8 r
      | _ => false
    else if b = 0xED then
      match rest with
      | c1 :: c2 :: r => decide (0x80 ≤ c1 ∧ c1 ≤ 0x9F) && isCont c2 && validUtf8 r
      | _ => false
    else if b = 0xF0 then
      match rest with
      | c1 :: c2 :: c3 :: r =>
        decide (0x90 ≤ c1 ∧ c1 ≤ 0xBF) && isCont c2 && isCont c3 && validUtf8 r
      | _ => false
    else if 0xF1 ≤ b ∧ b ≤ 0xF3 then
      match rest with
      | c1 :: c2 :: c3 :: r => isCont c1 && isCont c2 && isCont c3 && validUtf8 r
      | _ => false
    else if b = 0xF4 then
      match rest with
      | c1 :: c2 :: c3 :: r =>
        decide (0x80 ≤ c1 ∧ c1 ≤ 0x8F) && isCont c2 && isCont c3 && validUtf8 r
      | _ => false
    else false

/-! ## Decode-side read primitives

Reading from an exhausted `List Nat` stream is exactly the
`io::ErrorKind::UnexpectedEof` case of the byteorder readers, which the
`?` operator routes through `Error::from`, yielding `IncompleteNbtValue`. -/

/-- Read one raw byte. -/
def readByte : List Nat → Except Error (Nat × List Nat)
  | [] => .error .IncompleteNbtValue
  | b :: rest => .ok (b, rest)

/-- Read `w` raw bytes (`read_exact` semantics: all or `UnexpectedEof`). -/
def readBytes (w : Nat) (bytes : List Nat) : Except Error (List Nat × List Nat) :=
  if bytes.length < w then .error .IncompleteNbtValue
  else .ok (bytes.take w, bytes.drop w)

/-- `read_u16::<BigEndian>`. -/
def readU16 (bytes : List Nat) : Except Error (Nat × List Nat) :=
  match readBytes 2 bytes with
  | .error e => .error e
  | .ok (bs, rest) => .ok (beVal bs, rest)

/-- `read_i8`: one byte reinterpreted as signed. -/
def readI8 (bytes : List Nat) : Except Error (Int × List Nat) :=
  match readByte bytes with
  | .error e => .error e
  | .ok (b, rest) => .ok (toSigned 1 b, rest)

/-- `read_i16::<BigEndian>`. -/
def readI16 (bytes : List Nat) : Except Error (Int × List Nat) :=
  match readBytes 2 bytes with
  | .error e => .error e
  | .ok (bs, rest) => .ok (toSigned 2 (beVal bs), rest)

/-- `read_i32::<BigEndian>`. -/
def readI32 (bytes : List Nat) : Except Error (Int × List Nat) :=
  match readBytes 4 bytes with
  | .error e => .error e
  | .ok (bs, rest) => .ok (toSigned 4 (beVal bs), rest)

/-- `read_i64::<BigEndian>`. -/
def readI64 (bytes : List Nat) : Except Error (Int × List Nat) :=
  match readBytes 8 bytes with
  | .error e => .error e
  | .ok (bs, rest) => .ok (toSigned 8 (beVal bs), rest)

/-- `read_f32::<BigEndian>` as its raw bit pattern (byteorder reads the
4 bytes and transmutes; the codec never inspects the float value). -/
def readF32bits (bytes : List Nat) : Except Error (Nat × List Nat) :=
  match readBytes 4 bytes with
  | .error e => .error e
  | .ok (bs, rest) => .ok (beVal bs, rest)

/-- `read_f64::<BigEndian>` as its raw bit pattern. -/
def readF64bits (bytes : List Nat) : Except Error (Nat × List Nat) :=
  match readBytes 8 bytes with
  | .error e => .error e
  | .ok (bs, rest) => .ok (beVal bs, rest)

/-- `?`-propagation on decode results (the reader's error monad). -/
def dbind {α β : Type} (x : Except Error α) (f : α → Except Error β) :
    Except Error β :=
  match x with
  | .error e => .error e
  | .ok a => f a

@[simp] theorem dbind_ok {α β : Type} (a : α) (f : α → Except Error β) :
    dbind (.ok a) f = f a := rfl

@[simp] theorem dbind_error {α β : Type} (e : Error) (f : α → Except Error β) :
    dbind (.error e) f = .error e := rfl

/-- `read_bare_string` (decode.rs lines 11-22): a 2-byte big-endian
length, that many raw bytes, validated as UTF-8. A zero length returns
the empty string without touching the stream further. -/
def read_bare_string (bytes : List Nat) : Except Error (List Nat × List Nat) :=
  dbind (readU16 bytes) fun p =>
    if p.1 = 0 then .ok ([], p.2)
    else dbind (readBytes p.1 p.2) fun q =>
      if validUtf8 q.1 then .ok (q.1, q.2) else .error .InvalidUtf8

/-! ## Encoder engine (src/nbt-serde/src/encode.rs) -/

/-- `LevelState` (encode.rs lines 11-19): one nesting frame. -/
inductive LevelState
  | InNamed (name : Option (List Nat))
  | InList (kind : Kind)
  | List (name : Option (List Nat)) (len : Int)
deriving DecidableEq, Repr

/-- `LevelState::is_list` (encode.rs lines 40-45): true only for the
pending `List` frame, not for `InList`. -/
def LevelState.is_list : LevelState → Bool
  | .List _ _ => true
  | _ => false

/-- Encoder state: the frame stack (`states`, head = top, the end of the
Rust `Vec`) and the bytes written so far (`out`, the `io::Write` sink). -/
structure EncState where
  states : List LevelState
  out : List Nat
deriving DecidableEq, Repr

/-- Outcome of one encoder operation: `Result::Ok`, `Result::Err` (with
the state left behind), or a Rust panic/`unimplemented!`/`unreachable!`. -/
inductive EOut (α : Type)
  | ok (a : α) (s : EncState)
  | err (e : Error) (s : EncState)
  | panic (msg : String)
deriving DecidableEq, Repr

/-- Sequence two encoder operations (`?` propagation; panics abort). -/
def EOut.andThen {α : Type} : EOut Unit → (EncState → EOut α) → EOut α
  | .ok _ s, f => f s
  | .err e s, _ => .err e s
  | .panic m, _ => .panic m

@[simp] theorem EOut.andThen_ok {α : Type} (s : EncState) (f : EncState → EOut α) :
    EOut.andThen (.ok () s) f = f s := rfl

@[simp] theorem EOut.andThen_err {α : Type} (e : Error) (s : EncState)
    (f : EncState → EOut α) : EOut.andThen (.err e s) f = .err e s := rfl

@[simp] theorem EOut.andThen_panic {α : Type} (m : String) (f : EncState → EOut α) :
    EOut.andThen (.panic m) f = .panic m := rfl

namespace Encoder

/-- `Encoder::new` (encode.rs lines 82-87): one `InNamed` frame holding
the root name (`header.unwrap_or("")`), nothing written yet. -/
def new (header : Option (List Nat)) : EncState :=
  ⟨[LevelState.InNamed (some (header.getD []))], []⟩

/-- Append raw bytes to the writer (writes to the sink always succeed). -/
def emit (s : EncState) (bs : List Nat) : EncState :=
  ⟨s.states, s.out ++ bs⟩

/-- `Encoder::specify_kind` (encode.rs lines 106-154). Panics if called
with a list-like kind, on an empty stack, or when no field name is
pending; commits a pending sequence's framing when the top frame is
`List`; enforces homogeneity when the top frame is `InList` (popping the
frame before the error return, as the Rust `pop` does); pushes a fresh
`InNamed` frame after a `Compound` tag. -/
def specify_kind (tag : Kind) (s : EncState) : EOut Unit :=
  if tag.is_list then
    .panic "Encoder::specify_kind called with List, use Encoder::open_list instead."
  else
    match s.states with
    | [] => .panic "called Option::unwrap on a None value"
    | top :: rest =>
      match top with
      | .InNamed none => .panic "value specified without key name"
      | .InNamed (some name) =>
        let s1 : EncState :=
          ⟨LevelState.InNamed none :: rest,
            s.out ++ [ ((tag.to_id % 256).toNat) ] ++ write_bare_string name⟩
        if tag = Kind.Compound then
          .ok () ⟨LevelState.InNamed none :: s1.states, s1.out⟩
        else .ok () s1
      | .InList kind =>
        if kind ≠ tag then .err (.HeterogenousList kind tag) ⟨rest, s.out⟩
        else
          let s1 : EncState := ⟨LevelState.InList kind :: rest, s.out⟩
          if tag = Kind.Compound then
            .ok () ⟨LevelState.InNamed none :: s1.states, s1.out⟩
          else .ok () s1
      | .List none _ => .panic "not implemented"
      | .List (some name) len =>
        let container := tag.list_container
        let header := [ ((container.to_id % 256).toNat) ] ++ write_bare_string name
          ++ (if container = Kind.List then [ ((tag.to_id % 256).toNat) ] else [])
          ++ intBytesBE 4 len
        let s1 : EncState :=
          ⟨LevelState.InList tag :: LevelState.InNamed none :: rest, s.out ++ header⟩
        if tag = Kind.Compound then
          .ok () ⟨LevelState.InNamed none :: s1.states, s1.out⟩
        else .ok () s1

/-- `LevelState::open_list` (encode.rs lines 22-38), inlined into
`Encoder::open_list` (lines 156-166): the popped frame's replacement is
pushed only on success; on the heterogeneity error the popped frame is
dropped, exactly as the early `?` return after `pop` does. -/
def open_list (len : Int) (s : EncState) : EOut Unit :=
  match s.states with
  | [] => .panic "called Option::unwrap on a None value"
  | top :: rest =>
    match top with
    | .InNamed none => .panic "Key name not specified before value"
    | .InNamed (some name) => .ok () ⟨LevelState.List (some name) len :: rest, s.out⟩
    | .InList kind =>
      if kind.is_list then .ok () ⟨LevelState.List none len :: rest, s.out⟩
      else .err (.HeterogenousList kind Kind.List) ⟨rest, s.out⟩
    | .List nm l => .ok () ⟨LevelState.List none len :: LevelState.List nm l :: rest, s.out⟩

/-- `Encoder::specify_name` (encode.rs lines 169-181). -/
def specify_name (name : List Nat) (s : EncState) : EOut Unit :=
  match s.states with
  | [] => .panic "called Option::unwrap on a None value"
  | top :: rest =>
    match top with
    | .InNamed none => .ok () ⟨LevelState.InNamed (some name) :: rest, s.out⟩
    | .InNamed (some _) => .panic "key name specified twice"
    | _ => .panic "key name specified while in a list"

/-- `Encoder::cancel_name` (encode.rs lines 183-190). -/
def cancel_name (s : EncState) : EOut Unit :=
  match s.states with
  | [] => .panic "called Option::unwrap on a None value"
  | .InNamed _ :: rest => .ok () ⟨LevelState.InNamed none :: rest, s.out⟩
  | st => .ok () ⟨st, s.out⟩

/-- `Encoder::close_level` (encode.rs lines 193-209): when the TOP frame
satisfies `LevelState::is_list` (i.e. it is a pending `List` frame whose
element kind was never discovered) a synthetic `End` kind is first
committed through `specify_kind`; then one frame is popped: a record
frame must have no pending name (else panic) and writes the `0x00`
terminator, an `InList` frame writes nothing, a `List` frame is
`unreachable!()`. -/
def close_level (s : EncState) : EOut Unit :=
  let step : EncState → EOut Unit := fun s1 =>
    match s1.states with
    | [] => .panic "called Option::unwrap on a None value"
    | top :: rest =>
      match top with
      | .InNamed (some _) => .panic "key name specified without value"
      | .InNamed none => .ok () ⟨rest, s1.out ++ [0]⟩
      | .InList _ => .ok () ⟨rest, s1.out⟩
      | .List _ _ => .panic "internal error: entered unreachable code"
  match s.states with
  | [] => .panic "called Option::unwrap on a None value"
  | top :: _ =>
    if top.is_list then (specify_kind Kind.End s).andThen step
    else step s

end Encoder

/-- `usize as i32` (encode.rs `serialize_seq`: `l as i32`). -/
def intCast32 (n : Nat) : Int :=
  toSigned 4 (n % 4294967296)

/-- The serde data model as the encoder sees it: one constructor per
`Serializer` method of `InnerEncoder` (encode.rs lines 309-504). Strings
are their UTF-8 bytes; floats are their IEEE-754 bit patterns (the codec
only transports the bits). -/
inductive HostValue
  | hBool (b : Bool)
  | hI8 (v : Int)
  | hI16 (v : Int)
  | hI32 (v : Int)
  | hI64 (v : Int)
  | hU8 (v : Nat)
  | hU16 (v : Nat)
  | hU32 (v : Nat)
  | hU64 (v : Nat)
  | hF32 (bits : Nat)
  | hF64 (bits : Nat)
  | hChar (c : Nat)
  | hStr (s : List Nat)
  | hBytes (bs : List Nat)
  | hNone
  | hSome (v : HostValue)
  | hUnit
  | hUnitStruct
  | hNewtypeStruct (v : HostValue)
  | hUnitVariant
  | hNewtypeVariant (v : HostValue)
  | hTupleVariant
  | hStructVariant
  | hSeq (elems : List HostValue)
  | hTuple (elems : List HostValue)
  | hMap (pairs : List (HostValue × HostValue))
  | hStruct (fields : List (List Nat × HostValue))

mutual

/-- `Serializer for &mut InnerEncoder` (encode.rs lines 309-504): one
case per method, driving the encoder state machine. -/
def serializeInner : HostValue → EncState → EOut Unit
  | .hBool b, s =>
    (Encoder.specify_kind .I8 s).andThen fun s1 =>
      .ok () (Encoder.emit s1 [if b then 1 else 0])
  | .hI8 v, s =>
    (Encoder.specify_kind .I8 s).andThen fun s1 =>
      .ok () (Encoder.emit s1 (intBytesBE 1 v))
  | .hI16 v, s =>
    (Encoder.specify_kind .I16 s).andThen fun s1 =>
      .ok () (Encoder.emit s1 (intBytesBE 2 v))
  | .hI32 v, s =>
    (Encoder.specify_kind .I32 s).andThen fun s1 =>
      .ok () (Encoder.emit s1 (intBytesBE 4 v))
  | .hI64 v, s =>
    (Encoder.specify_kind .I64 s).andThen fun s1 =>
      .ok () (Encoder.emit s1 (intBytesBE 8 v))
  | .hU8 _, s => .err (.UnrepresentableType "u8") s
  | .hU16 _, s => .err (.UnrepresentableType "u16") s
  | .hU32 _, s => .err (.UnrepresentableType "u32") s
  | .hU64 _, s => .err (.UnrepresentableType "u64") s
  | .hF32 bits, s =>
    (Encoder.specify_kind .F32 s).andThen fun s1 =>
      .ok () (Encoder.emit s1 (natBytesBE 4 bits))
  | .hF64 bits, s =>
    (Encoder.specify_kind .F64 s).andThen fun s1 =>
      .ok () (Encoder.emit s1 (natBytesBE 8 bits))
  | .hChar _, s => .err (.UnrepresentableType "char") s
  | .hStr sv, s =>
    (Encoder.specify_kind .String s).andThen fun s1 =>
      .ok () (Encoder.emit s1 (write_bare_string sv))
  | .hBytes _, s => .err (.UnrepresentableType "u8") s
  | .hNone, s => (Encoder.cancel_name s).andThen fun s1 => .ok () s1
  | .hSome v, s => serializeInner v s
  | .hUnit, s => .err (.UnrepresentableType "unit") s
  | .hUnitStruct, s =>
    (Encoder.specify_kind .Compound s).andThen fun s1 => Encoder.close_level s1
  | .hNewtypeStruct v, s => serializeInner v s
  | .hUnitVariant, s => .err (.UnrepresentableType "unit variant") s
  | .hNewtypeVariant _, s => .err (.UnrepresentableType "newtype variant") s
  | .hTupleVariant, s => .err (.UnrepresentableType "tuple variant") s
  | .hStructVariant, s => .err (.UnrepresentableType "struct variant") s
  | .hSeq elems, s =>
    (Encoder.open_list (intCast32 elems.length) s).andThen fun s1 =>
      (serializeElems elems s1).andThen fun s2 => Encoder.close_level s2
  | .hTuple _, s => .err (.UnrepresentableType "tuple") s
  | .hMap _, s => .err (.UnrepresentableType "map") s
  | .hStruct fields, s =>
    (Encoder.specify_kind .Compound s).andThen fun s1 =>
      (serializeFields fields s1).andThen fun s2 => Encoder.close_level s2

/-- `SerializeSeq for Compound` (encode.rs lines 222-237): each element
through the inner serializer, then `close_level`. -/
def serializeElems : List HostValue → EncState → EOut Unit
  | [], s => .ok () s
  | v :: vs, s => (serializeInner v s).andThen fun s1 => serializeElems vs s1

/-- `SerializeStruct for Compound` (encode.rs lines 239-256): each field
sets its name, then serializes its value through the inner serializer. -/
def serializeFields : List (List Nat × HostValue) → EncState → EOut Unit
  | [], s => .ok () s
  | (n, v) :: fs, s =>
    (Encoder.specify_name n s).andThen fun s1 =>
      (serializeInner v s1).andThen fun s2 => serializeFields fs s2

end

/-- `Serializer for &mut Encoder` (encode.rs lines 258-307): the
top-level serializer. Structs (and unit structs, and newtype structs by
delegation) open the root compound; maps fail with
`UnrepresentableType("map")`; every other type fails with
`NoRootCompound` via `return_expr_for_serialized_types!`. -/
def serializeOuter : HostValue → EncState → EOut Unit
  | .hStruct fields, s =>
    (Encoder.specify_kind .Compound s).andThen fun s1 =>
      (serializeFields fields s1).andThen fun s2 => Encoder.close_level s2
  | .hUnitStruct, s =>
    (Encoder.specify_kind .Compound s).andThen fun s1 => Encoder.close_level s1
  | .hNewtypeStruct v, s => serializeOuter v s
  | .hMap _, s => .err (.UnrepresentableType "map") s
  | _, s => .err .NoRootCompound s

/-- `to_writer` (encode.rs lines 59-66): a fresh encoder with the given
optional header, then `value.serialize(&mut encoder)`. -/
def to_writer (v : HostValue) (header : Option (List Nat)) : EOut Unit :=
  serializeOuter v (Encoder.new header)

/-- The bytes a successful encode leaves in the writer. -/
def outBytes : EOut Unit → Option (List Nat)
  | .ok _ s => some s.out
  | _ => none

/-! ## Decoder engine (src/nbt-serde/src/decode.rs)

The Rust decoder recurses on the call stack; the embedding adds an
explicit `fuel` parameter only to make the recursion well-founded. Fuel
exhaustion yields `IncompleteNbtValue` — the theorems below only ever
draw conclusions under enough fuel (and `from_reader` supplies
`2 * length + 2`, which the round-trip theorem shows is enough for every
stream the encoder produces). -/

mutual

/-- `InnerDecoder::deserialize` (decode.rs lines 242-261): dispatch on
the remembered tag byte. Tags `0x07`/`0x0b` enter `SeqDecoder::byte_array`
/ `int_array` (element tags `0x01`/`0x03`); tag `0x09` reads the element
tag and length itself; any other tag — including `0x0c` — is
`UnknownTag`. -/
def decodeValue : Nat → Nat → List Nat → Except Error (HostValue × List Nat)
  | 0, _, _ => .error .IncompleteNbtValue
  | fuel + 1, tag, bytes =>
    match tag with
    | 1 => dbind (readI8 bytes) fun p => .ok (.hI8 p.1, p.2)
    | 2 => dbind (readI16 bytes) fun p => .ok (.hI16 p.1, p.2)
    | 3 => dbind (readI32 bytes) fun p => .ok (.hI32 p.1, p.2)
    | 4 => dbind (readI64 bytes) fun p => .ok (.hI64 p.1, p.2)
    | 5 => dbind (readF32bits bytes) fun p => .ok (.hF32 p.1, p.2)
    | 6 => dbind (readF64bits bytes) fun p => .ok (.hF64 p.1, p.2)
    | 7 =>
      dbind (readI32 bytes) fun p =>
        dbind (decodeSeq fuel 1 p.1 0 p.2) fun q => .ok (.hSeq q.1, q.2)
    | 8 => dbind (read_bare_string bytes) fun p => .ok (.hStr p.1, p.2)
    | 9 =>
      dbind (readByte bytes) fun p =>
        dbind (readI32 p.2) fun q =>
          dbind (decodeSeq fuel p.1 q.1 0 q.2) fun r => .ok (.hSeq r.1, r.2)
    | 10 =>
      dbind (decodeMapEntries fuel bytes) fun p => .ok (.hStruct p.1, p.2)
    | 11 =>
      dbind (readI32 bytes) fun p =>
        dbind (decodeSeq fuel 3 p.1 0 p.2) fun q => .ok (.hSeq q.1, q.2)
    | t => .error (.UnknownTag t)

/-- `MapVisitor for MapDecoder` (decode.rs lines 146-177): read one tag
byte; `0x00` terminates the record; otherwise read the key as a bare
string (the hard-coded `0x08` key decoder) and the value under the
remembered tag, in stream order. -/
def decodeMapEntries :
    Nat → List Nat → Except Error (List (List Nat × HostValue) × List Nat)
  | 0, _ => .error .IncompleteNbtValue
  | fuel + 1, bytes =>
    dbind (readByte bytes) fun p =>
      if p.1 = 0 then .ok ([], p.2)
      else
        dbind (read_bare_string p.2) fun q =>
          dbind (decodeValue fuel p.1 q.2) fun r =>
            dbind (decodeMapEntries fuel r.2) fun s =>
              .ok ((q.1, r.1) :: s.1, s.2)

/-- `SeqVisitor for SeqDecoder` (decode.rs lines 209-231): elements are
read until `current == length` exactly; `current` starts at 0 and grows
by 1 per element. -/
def decodeSeq :
    Nat → Nat → Int → Int → List Nat → Except Error (List HostValue × List Nat)
  | 0, _, _, _, _ => .error .IncompleteNbtValue
  | fuel + 1, tag, length, current, bytes =>
    if current = length then .ok ([], bytes)
    else
      dbind (decodeValue fuel tag bytes) fun p =>
        dbind (decodeSeq fuel tag length (current + 1) p.2) fun q =>
          .ok (p.1 :: q.1, q.2)

end

/-- `from_reader` / `deserialize_map` (decode.rs lines 28-34, 112-123):
read one tag byte — `0x0a` opens the root compound (whose own name is
read and dropped), anything else is `NoRootCompound`; an empty stream
fails earlier with `IncompleteNbtValue` from the read itself. Trailing
bytes after the root compound are not inspected. -/
def from_reader (bytes : List Nat) : Except Error HostValue :=
  dbind (readI8 bytes) fun p =>
    if p.1 = 10 then
      dbind (read_bare_string p.2) fun q =>
        dbind (decodeMapEntries (2 * bytes.length + 2) q.2) fun r =>
          .ok (.hStruct r.1)
    else .error .NoRootCompound

/-- `InnerDecoder::deserialize_bool` (decode.rs lines 264-282): an `I8`
tag reads one byte which must be 0 or 1; a known non-`I8` tag is
`UnexpectedTag(kind, Kind::I8)`; an unknown tag byte is `UnknownTag`. -/
def deserialize_bool (tag : Nat) (bytes : List Nat) :
    Except Error (Bool × List Nat) :=
  if tag = 1 then
    dbind (readI8 bytes) fun p =>
      if p.1 = 0 then .ok (false, p.2)
      else if p.1 = 1 then .ok (true, p.2)
      else .error (.NonBooleanByte p.1)
  else
    match Kind.from_id (toSigned 1 tag) with
    | some kind => .error (.UnexpectedTag kind .I8)
    | none => .error (.UnknownTag tag)

/-- The shapes the top-level serializer opens a root compound for:
structs, unit structs, and newtype structs (which delegate). -/
def isTopLevelRecord : HostValue → Bool
  | .hStruct _ => true
  | .hUnitStruct => true
  | .hNewtypeStruct _ => true
  | _ => false

/-- Maps, the one non-record shape the top-level serializer rejects with
`UnrepresentableType` instead of `NoRootCompound`. -/
def isMapValue : HostValue → Bool
  | .hMap _ => true
  | _ => false

/-! ## Round-trip infrastructure

`valueBytes`/`elemsBytes`/`fieldsBytes` spell out, as a pure function of
a host value, the bytes the encoder emits for it; `RTv` is the class of
values the round-trip theorem covers (supported primitives, strings,
nested compounds, homogeneous lists and the array kinds the decoder can
read back, with the in-range side conditions the machine widths
impose). -/

/-- The NBT kind a host value's payload carries. -/
def kindOf : HostValue → Kind
  | .hI8 _ => .I8
  | .hI16 _ => .I16
  | .hI32 _ => .I32
  | .hI64 _ => .I64
  | .hF32 _ => .F32
  | .hF64 _ => .F64
  | .hStr _ => .String
  | .hSeq _ => .List
  | .hStruct _ => .Compound
  | _ => .End

/-- The kind of a sequence's first element (`End` when empty, exactly the
synthetic kind `close_level` commits for a never-started sequence). -/
def seqElemKind : List HostValue → Kind
  | [] => .End
  | e :: _ => kindOf e

/-- A kind's tag id as the byte `write_i8` puts on the wire. -/
def tagIdByte (k : Kind) : Nat :=
  (k.to_id % 256).toNat

/-- The tag byte a value is framed under in a named context: sequences
use their `list_container`, everything else its own kind. -/
def wireTag : HostValue → Kind
  | .hSeq elems => (seqElemKind elems).list_container
  | v => kindOf v

mutual

/-- The payload bytes of one value (everything after the tag/name
header): for sequences the element-kind byte (generic lists only), the
4-byte length, then the elements; for compounds the fields then the
`End` byte. -/
def valueBytes : HostValue → List Nat
  | .hI8 v => intBytesBE 1 v
  | .hI16 v => intBytesBE 2 v
  | .hI32 v => intBytesBE 4 v
  | .hI64 v => intBytesBE 8 v
  | .hF32 b => natBytesBE 4 b
  | .hF64 b => natBytesBE 8 b
  | .hStr s => write_bare_string s
  | .hSeq elems =>
    (if (seqElemKind elems).list_container = Kind.List
      then [tagIdByte (seqElemKind elems)] else [])
      ++ intBytesBE 4 (intCast32 elems.length) ++ elemsBytes elems
  | .hStruct fields => fieldsBytes fields ++ [0]
  | _ => []

/-- Concatenated untagged, unnamed element payloads. -/
def elemsBytes : List HostValue → List Nat
  | [] => []
  | v :: vs => valueBytes v ++ elemsBytes vs

/-- Concatenated tagged, named field encodings. -/
def fieldsBytes : List (List Nat × HostValue) → List Nat
  | [] => []
  | (n, v) :: fs =>
    [tagIdByte (wireTag v)] ++ write_bare_string n ++ valueBytes v ++ fieldsBytes fs

end

mutual

/-- Round-trippable values: the supported primitives in range, valid
UTF-8 strings below the u16 length limit, homogeneous sequences below
the i32 length limit whose elements are neither sequences (the encoder's
unresolved immediate-nesting case) nor `i64` (whose `I64Array` container
the decoder cannot read), and records of round-trippable fields. -/
def RTv : HostValue → Bool
  | .hI8 v => decide (-128 ≤ v ∧ v < 128)
  | .hI16 v => decide (-32768 ≤ v ∧ v < 32768)
  | .hI32 v => decide (-2147483648 ≤ v ∧ v < 2147483648)
  | .hI64 v => decide (-9223372036854775808 ≤ v ∧ v < 9223372036854775808)
  | .hF32 b => decide (b < 4294967296)
  | .hF64 b => decide (b < 18446744073709551616)
  | .hStr s => validUtf8 s && decide (s.length < 65536)
  | .hSeq elems =>
    decide (elems.length < 2147483648) && RTelems (seqElemKind elems) elems
  | .hStruct fields => RTfields fields
  | _ => false

/-- Homogeneous list elements of the remembered kind `k`. -/
def RTelems : Kind → List HostValue → Bool
  | _, [] => true
  | k, v :: vs =>
    RTv v && decide (kindOf v = k) && !(kindOf v).is_list
      && decide (kindOf v ≠ Kind.I64) && RTelems k vs

/-- Round-trippable record fields: valid UTF-8 names below the u16
length limit with round-trippable values. -/
def RTfields : List (List Nat × HostValue) → Bool
  | [] => true
  | (n, v) :: fs =>
    validUtf8 n && decide (n.length < 65536) && RTv v && RTfields fs

end

mutual

/-- Fuel needed by `decodeValue` on this value's payload. -/
def szVal : HostValue → Nat
  | .hSeq elems => 1 + szSeq elems
  | .hStruct fields => 1 + szMap fields
  | _ => 1

/-- Fuel needed by `decodeSeq` over these elements. -/
def szSeq : List HostValue → Nat
  | [] => 1
  | v :: vs => 1 + max (szVal v) (szSeq vs)

/-- Fuel needed by `decodeMapEntries` over these fields. -/
def szMap : List (List Nat × HostValue) → Nat
  | [] => 1
  | (_, v) :: fs => 1 + max (szVal v) (szMap fs)

end

mutual

/-- Structural size used for the mutual inductions below. -/
def hvSize : HostValue → Nat
  | .hSeq elems => 1 + hvlSize elems
  | .hStruct fields => 1 + hflSize fields
  | _ => 1

/-- Structural size of an element list. -/
def hvlSize : List HostValue → Nat
  | [] => 0
  | v :: vs => 1 + hvSize v + hvlSize vs

/-- Structural size of a field list. -/
def hflSize : List (List Nat × HostValue) → Nat
  | [] => 0
  | (_, v) :: fs => 1 + hvSize v + hflSize fs

end

/-- The full document `to_writer` produces for a root record with empty
root name. -/
def encodedDoc (fs : List (List Nat × HostValue)) : List Nat :=
  [10, 0, 0] ++ fieldsBytes fs ++ [0]

theorem readBytes_exact (xs rest : List Nat) :
    readBytes xs.length (xs ++ rest) = .ok (xs, rest) := by
  unfold readBytes
  rw [if_neg (by simp)]
  rw [List.take_left, List.drop_left]

theorem readBytes_natBytesBE (w n : Nat) (rest : List Nat) :
    readBytes w (natBytesBE w n ++ rest) = .ok (natBytesBE w n, rest) := by
  have h := natBytesBE_length w n
  calc readBytes w (natBytesBE w n ++ rest)
      = readBytes (natBytesBE w n).length (natBytesBE w n ++ rest) := by rw [h]
    _ = .ok (natBytesBE w n, rest) := readBytes_exact _ _

theorem readI8_round (v : Int) (rest : List Nat) (h1 : -128 ≤ v) (h2 : v < 128) :
    readI8 (intBytesBE 1 v ++ rest) = .ok (v, rest) := by
  have hb : intBytesBE 1 v ++ rest = (v % 256).toNat % 256 :: rest := by
    simp [intBytesBE, natBytesBE]
  rw [hb]
  simp only [readI8, readByte]
  have hs : toSigned 1 ((v % 256).toNat % 256) = v := by
    unfold toSigned
    split <;> omega
  rw [hs]

theorem readI16_round (v : Int) (rest : List Nat)
    (h1 : -32768 ≤ v) (h2 : v < 32768) :
    readI16 (intBytesBE 2 v ++ rest) = .ok (v, rest) := by
  unfold readI16 intBytesBE
  rw [readBytes_natBytesBE]
  simp only [beVal_natBytesBE]
  have hs : toSigned 2 ((v % ((256 : Int) ^ 2)).toNat % 256 ^ 2) = v := by
    unfold toSigned
    have hp : ((256 : Int) ^ 2) = 65536 := by norm_num
    have hq : (256 ^ 2 : Nat) = 65536 := by norm_num
    rw [hp, hq]
    split <;> omega
  rw [hs]

theorem readI32_round (v : Int) (rest : List Nat)
    (h1 : -2147483648 ≤ v) (h2 : v < 2147483648) :
    readI32 (intBytesBE 4 v ++ rest) = .ok (v, rest) := by
  unfold readI32 intBytesBE
  rw [readBytes_natBytesBE]
  simp only [beVal_natBytesBE]
  have hs : toSigned 4 ((v % ((256 : Int) ^ 4)).toNat % 256 ^ 4) = v := by
    unfold toSigned
    have hp : ((256 : Int) ^ 4) = 4294967296 := by norm_num
    have hq : (256 ^ 4 : Nat) = 4294967296 := by norm_num
    rw [hp, hq]
    split <;> omega
  rw [hs]

theorem readI64_round (v : Int) (rest : List Nat)
    (h1 : -9223372036854775808 ≤ v) (h2 : v < 9223372036854775808) :
    readI64 (intBytesBE 8 v ++ rest) = .ok (v, rest) := by
  unfold readI64 intBytesBE
  rw [readBytes_natBytesBE]
  simp only [beVal_natBytesBE]
  have hs : toSigned 8 ((v % ((256 : Int) ^ 8)).toNat % 256 ^ 8) = v := by
    unfold toSigned
    have hp : ((256 : Int) ^ 8) = 18446744073709551616 := by norm_num
    have hq : (256 ^ 8 : Nat) = 18446744073709551616 := by norm_num
    rw [hp, hq]
    split <;> omega
  rw [hs]

theorem readF32bits_round (b : Nat) (rest : List Nat) (h : b < 4294967296) :
    readF32bits (natBytesBE 4 b ++ rest) = .ok (b, rest) := by
  unfold readF32bits
  rw [readBytes_natBytesBE]
  simp only [beVal_natBytesBE]
  have : b % 256 ^ 4 = b := Nat.mod_eq_of_lt (by norm_num; omega)
  rw [this]

theorem readF64bits_round (b : Nat) (rest : List Nat)
    (h : b < 18446744073709551616) :
    readF64bits (natBytesBE 8 b ++ rest) = .ok (b, rest) := by
  unfold readF64bits
  rw [readBytes_natBytesBE]
  simp only [beVal_natBytesBE]
  have : b % 256 ^ 8 = b := Nat.mod_eq_of_lt (by norm_num; omega)
  rw [this]

theorem read_bare_string_round (s rest : List Nat)
    (hu : validUtf8 s = true) (hl : s.length < 65536) :
    read_bare_string (write_bare_string s ++ rest) = .ok (s, rest) := by
  unfold read_bare_string write_bare_string readU16
  rw [List.append_assoc, readBytes_natBytesBE]
  simp only [beVal_natBytesBE]
  have hmod : s.length % 256 ^ 2 = s.length := Nat.mod_eq_of_lt (by norm_num; omega)
  rw [hmod]
  by_cases h0 : s.length = 0
  · have hs : s = [] := List.length_eq_zero.mp h0
    subst hs
    simp
  · simp only [dbind_ok, h0, if_false]
    have : readBytes s.length (s ++ rest) = .ok (s, rest) := readBytes_exact s rest
    rw [this, dbind_ok, hu]
    simp

theorem hvSize_pos (v : HostValue) : 0 < hvSize v := by
  cases v <;> simp [hvSize]

theorem wireTag_eq_kindOf (v : HostValue) (h : (kindOf v).is_list = false) :
    wireTag v = kindOf v := by
  cases v <;> simp_all [wireTag, kindOf, Kind.is_list]

theorem specify_kind_named_scalar (tag : Kind) (name : List Nat)
    (st : List LevelState) (out : List Nat)
    (hl : tag.is_list = false) (hc : tag ≠ Kind.Compound) :
    Encoder.specify_kind tag ⟨.InNamed (some name) :: st, out⟩
      = .ok () ⟨.InNamed none :: st, out ++ [tagIdByte tag] ++ write_bare_string name⟩ := by
  simp [Encoder.specify_kind, hl, hc, tagIdByte]

theorem specify_kind_named_compound (name : List Nat)
    (st : List LevelState) (out : List Nat) :
    Encoder.specify_kind .Compound ⟨.InNamed (some name) :: st, out⟩
      = .ok () ⟨.InNamed none :: .InNamed none :: st,
          out ++ [tagIdByte Kind.Compound] ++ write_bare_string name⟩ := by
  simp [Encoder.specify_kind, Kind.is_list, tagIdByte]

theorem specify_kind_inlist_scalar (tag : Kind)
    (st : List LevelState) (out : List Nat)
    (hl : tag.is_list = false) (hc : tag ≠ Kind.Compound) :
    Encoder.specify_kind tag ⟨.InList tag :: st, out⟩
      = .ok () ⟨.InList tag :: st, out⟩ := by
  simp [Encoder.specify_kind, hl, hc]

theorem specify_kind_inlist_compound (st : List LevelState) (out : List Nat) :
    Encoder.specify_kind .Compound ⟨.InList .Compound :: st, out⟩
      = .ok () ⟨.InNamed none :: .InList .Compound :: st, out⟩ := by
  simp [Encoder.specify_kind, Kind.is_list]

theorem specify_kind_pending_scalar (tag : Kind) (name : List Nat) (len : Int)
    (st : List LevelState) (out : List Nat)
    (hl : tag.is_list = false) (hc : tag ≠ Kind.Compound) :
    Encoder.specify_kind tag ⟨.List (some name) len :: st, out⟩
      = .ok () ⟨.InList tag :: .InNamed none :: st,
          out ++ [tagIdByte tag.list_container] ++ write_bare_string name
            ++ (if tag.list_container = Kind.List then [tagIdByte tag] else [])
            ++ intBytesBE 4 len⟩ := by
  simp [Encoder.specify_kind, hl, hc, tagIdByte]

theorem specify_kind_pending_compound (name : List Nat) (len : Int)
    (st : List LevelState) (out : List Nat) :
    Encoder.specify_kind .Compound ⟨.List (some name) len :: st, out⟩
      = .ok () ⟨.InNamed none :: .InList .Compound :: .InNamed none :: st,
          out ++ [tagIdByte Kind.List] ++ write_bare_string name
            ++ [tagIdByte Kind.Compound] ++ intBytesBE 4 len⟩ := by
  simp [Encoder.specify_kind, Kind.is_list, Kind.list_container, tagIdByte]

theorem close_level_record (st : List LevelState) (out : List Nat) :
    Encoder.close_level ⟨.InNamed none :: st, out⟩ = .ok () ⟨st, out ++ [0]⟩ := rfl

theorem close_level_inlist (k : Kind) (st : List LevelState) (out : List Nat) :
    Encoder.close_level ⟨.InList k :: st, out⟩ = .ok () ⟨st, out⟩ := rfl

theorem close_level_pending (name : List Nat) (len : Int)
    (st : List LevelState) (out : List Nat) :
    Encoder.close_level ⟨.List (some name) len :: st, out⟩
      = .ok () ⟨.InNamed none :: st,
          out ++ [tagIdByte Kind.List] ++ write_bare_string name
            ++ [tagIdByte Kind.End] ++ intBytesBE 4 len⟩ := by
  simp [Encoder.close_level, Encoder.specify_kind, LevelState.is_list,
    Kind.is_list, Kind.list_container, EOut.andThen, tagIdByte]

theorem open_list_named (name : List Nat) (len : Int)
    (st : List LevelState) (out : List Nat) :
    Encoder.open_list len ⟨.InNamed (some name) :: st, out⟩
      = .ok () ⟨.List (some name) len :: st, out⟩ := rfl

theorem specify_name_unset (n : List Nat) (st : List LevelState) (out : List Nat) :
    Encoder.specify_name n ⟨.InNamed none :: st, out⟩
      = .ok () ⟨.InNamed (some n) :: st, out⟩ := rfl

/-- The encoder emits, for every round-trippable value, exactly the
bytes `valueBytes`/`elemsBytes`/`fieldsBytes` describe, in each of the
three contexts a value can occur in: as a named record field, as a
further element of an open homogeneous sequence, and as the first
element committing a pending sequence's framing. -/
theorem encode_spec : ∀ n : Nat,
    (∀ v, hvSize v ≤ n → RTv v = true →
      (∀ name st out,
        serializeInner v ⟨.InNamed (some name) :: st, out⟩
          = .ok () ⟨.InNamed none :: st,
              out ++ [tagIdByte (wireTag v)] ++ write_bare_string name ++ valueBytes v⟩)
      ∧ ((kindOf v).is_list = false →
        (∀ st out,
          serializeInner v ⟨.InList (kindOf v) :: st, out⟩
            = .ok () ⟨.InList (kindOf v) :: st, out ++ valueBytes v⟩)
        ∧ (∀ name len st out,
          serializeInner v ⟨.List (some name) len :: st, out⟩
            = .ok () ⟨.InList (kindOf v) :: .InNamed none :: st,
                out ++ [tagIdByte ((kindOf v).list_container)]
                  ++ write_bare_string name
                  ++ (if (kindOf v).list_container = Kind.List
                        then [tagIdByte (kindOf v)] else [])
                  ++ intBytesBE 4 len ++ valueBytes v⟩)))
    ∧ (∀ k elems, hvlSize elems ≤ n → RTelems k elems = true →
      ∀ st out,
        serializeElems elems ⟨.InList k :: st, out⟩
          = .ok () ⟨.InList k :: st, out ++ elemsBytes elems⟩)
    ∧ (∀ fs, hflSize fs ≤ n → RTfields fs = true →
      ∀ st out,
        serializeFields fs ⟨.InNamed none :: st, out⟩
          = .ok () ⟨.InNamed none :: st, out ++ fieldsBytes fs⟩) := by
  intro n
  induction n with
  | zero =>
    refine ⟨fun v hsz _ => absurd hsz (by have := hvSize_pos v; omega), ?_, ?_⟩
    · intro k elems hsz _ st out
      cases elems with
      | nil => simp [serializeElems, elemsBytes]
      | cons v vs =>
        exfalso
        have := hvSize_pos v
        simp [hvlSize] at hsz
    · intro fs hsz _ st out
      cases fs with
      | nil => simp [serializeFields, fieldsBytes]
      | cons f fs =>
        exfalso
        obtain ⟨n0, v⟩ := f
        have := hvSize_pos v
        simp [hflSize] at hsz
  | succ n ih =>
    obtain ⟨ihV, ihE, ihF⟩ := ih
    refine ⟨?_, ?_, ?_⟩
    · intro v hsz hrt
      cases v with
      | hBool b => exact absurd hrt (by simp [RTv])
      | hU8 w => exact absurd hrt (by simp [RTv])
      | hU16 w => exact absurd hrt (by simp [RTv])
      | hU32 w => exact absurd hrt (by simp [RTv])
      | hU64 w => exact absurd hrt (by simp [RTv])
      | hChar c => exact absurd hrt (by simp [RTv])
      | hBytes bs => exact absurd hrt (by simp [RTv])
      | hNone => exact absurd hrt (by simp [RTv])
      | hSome w => exact absurd hrt (by simp [RTv])
      | hUnit => exact absurd hrt (by simp [RTv])
      | hUnitStruct => exact absurd hrt (by simp [RTv])
      | hNewtypeStruct w => exact absurd hrt (by simp [RTv])
      | hUnitVariant => exact absurd hrt (by simp [RTv])
      | hNewtypeVariant w => exact absurd hrt (by simp [RTv])
      | hTupleVariant => exact absurd hrt (by simp [RTv])
      | hStructVariant => exact absurd hrt (by simp [RTv])
      | hTuple es => exact absurd hrt (by simp [RTv])
      | hMap ps => exact absurd hrt (by simp [RTv])
      | hI8 w =>
        refine ⟨fun name st out => ?_, fun _ => ⟨fun st out => ?_, fun name len st out => ?_⟩⟩
        · rw [show serializeInner (.hI8 w) ⟨.InNamed (some name) :: st, out⟩
              = (Encoder.specify_kind .I8 ⟨.InNamed (some name) :: st, out⟩).andThen
                  fun s1 => .ok () (Encoder.emit s1 (intBytesBE 1 w)) from rfl,
            specify_kind_named_scalar .I8 name st out (by decide) (by decide),
            EOut.andThen_ok]
          simp [Encoder.emit, wireTag, kindOf, valueBytes]
        · rw [show serializeInner (.hI8 w) ⟨.InList (kindOf (.hI8 w)) :: st, out⟩
              = (Encoder.specify_kind .I8 ⟨.InList .I8 :: st, out⟩).andThen
                  fun s1 => .ok () (Encoder.emit s1 (intBytesBE 1 w)) from rfl,
            specify_kind_inlist_scalar .I8 st out (by decide) (by decide),
            EOut.andThen_ok]
          simp [Encoder.emit, kindOf, valueBytes]
        · rw [show serializeInner (.hI8 w) ⟨.List (some name) len :: st, out⟩
              = (Encoder.specify_kind .I8 ⟨.List (some name) len :: st, out⟩).andThen
                  fun s1 => .ok () (Encoder.emit s1 (intBytesBE 1 w)) from rfl,
            specify_kind_pending_scalar .I8 name len st out (by decide) (by decide),
            EOut.andThen_ok]
          simp [Encoder.emit, kindOf, valueBytes]
      | hI16 w =>
        refine ⟨fun name st out => ?_, fun _ => ⟨fun st out => ?_, fun name len st out => ?_⟩⟩
        · rw [show serializeInner (.hI16 w) ⟨.InNamed (some name) :: st, out⟩
              = (Encoder.specify_kind .I16 ⟨.InNamed (some name) :: st, out⟩).andThen
                  fun s1 => .ok () (Encoder.emit s1 (intBytesBE 2 w)) from rfl,
            specify_kind_named_scalar .I16 name st out (by decide) (by decide),
            EOut.andThen_ok]
          simp [Encoder.emit, wireTag, kindOf, valueBytes]
        · rw [show serializeInner (.hI16 w) ⟨.InList (kindOf (.hI16 w)) :: st, out⟩
              = (Encoder.specify_kind .I16 ⟨.InList .I16 :: st, out⟩).andThen
                  fun s1 => .ok () (Encoder.emit s1 (intBytesBE 2 w)) from rfl,
            specify_kind_inlist_scalar .I16 st out (by decide) (by decide),
            EOut.andThen_ok]
          simp [Encoder.emit, kindOf, valueBytes]
        · rw [show serializeInner (.hI16 w) ⟨.List (some name) len :: st, out⟩
              = (Encoder.specify_kind .I16 ⟨.List (some name) len :: st, out⟩).andThen
                  fun s1 => .ok () (Encoder.emit s1 (intBytesBE 2 w)) from rfl,
            specify_kind_pending_scalar .I16 name len st out (by decide) (by decide),
            EOut.andThen_ok]
          simp [Encoder.emit, kindOf, valueBytes]
      | hI32 w =>
        refine ⟨fun name st out => ?_, fun _ => ⟨fun st out => ?_, fun name len st out => ?_⟩⟩
        · rw [show serializeInner (.hI32 w) ⟨.InNamed (some name) :: st, out⟩
              = (Encoder.specify_kind .I32 ⟨.InNamed (some name) :: st, out⟩).andThen
                  fun s1 => .ok () (Encoder.emit s1 (intBytesBE 4 w)) from rfl,
            specify_kind_named_scalar .I32 name st out (by decide) (by decide),
            EOut.andThen_ok]
          simp [Encoder.emit, wireTag, kindOf, valueBytes]
        · rw [show serializeInner (.hI32 w) ⟨.InList (kindOf (.hI32 w)) :: st, out⟩
              = (Encoder.specify_kind .I32 ⟨.InList .I32 :: st, out⟩).andThen
                  fun s1 => .ok () (Encoder.emit s1 (intBytesBE 4 w)) from rfl,
            specify_kind_inlist_scalar .I32 st out (by decide) (by decide),
            EOut.andThen_ok]
          simp [Encoder.emit, kindOf, valueBytes]
        · rw [show serializeInner (.hI32 w) ⟨.List (some name) len :: st, out⟩
              = (Encoder.specify_kind .I32 ⟨.List (some name) len :: st, out⟩).andThen
                  fun s1 => .ok () (Encoder.emit s1 (intBytesBE 4 w)) from rfl,
            specify_kind_pending_scalar .I32 name len st out (by decide) (by decide),
            EOut.andThen_ok]
          simp [Encoder.emit, kindOf, valueBytes]
      | hI64 w =>
        refine ⟨fun name st out => ?_, fun _ => ⟨fun st out => ?_, fun name len st out => ?_⟩⟩
        · rw [show serializeInner (.hI64 w) ⟨.InNamed (some name) :: st, out⟩
              = (Encoder.specify_kind .I64 ⟨.InNamed (some name) :: st, out⟩).andThen
                  fun s1 => .ok () (Encoder.emit s1 (intBytesBE 8 w)) from rfl,
            specify_kind_named_scalar .I64 name st out (by decide) (by decide),
            EOut.andThen_ok]
          simp [Encoder.emit, wireTag, kindOf, valueBytes]
        · rw [show serializeInner (.hI64 w) ⟨.InList (kindOf (.hI64 w)) :: st, out⟩
              = (Encoder.specify_kind .I64 ⟨.InList .I64 :: st, out⟩).andThen
                  fun s1 => .ok () (Encoder.emit s1 (intBytesBE 8 w)) from rfl,
            specify_kind_inlist_scalar .I64 st out (by decide) (by decide),
            EOut.andThen_ok]
          simp [Encoder.emit, kindOf, valueBytes]
        · rw [show serializeInner (.hI64 w) ⟨.List (some name) len :: st, out⟩
              = (Encoder.specify_kind .I64 ⟨.List (some name) len :: st, out⟩).andThen
                  fun s1 => .ok () (Encoder.emit s1 (intBytesBE 8 w)) from rfl,
            specify_kind_pending_scalar .I64 name len st out (by decide) (by decide),
            EOut.andThen_ok]
          simp [Encoder.emit, kindOf, valueBytes]
      | hF32 b =>
        refine ⟨fun name st out => ?_, fun _ => ⟨fun st out => ?_, fun name len st out => ?_⟩⟩
        · rw [show serializeInner (.hF32 b) ⟨.InNamed (some name) :: st, out⟩
              = (Encoder.specify_kind .F32 ⟨.InNamed (some name) :: st, out⟩).andThen
                  fun s1 => .ok () (Encoder.emit s1 (natBytesBE 4 b)) from rfl,
            specify_kind_named_scalar .F32 name st out (by decide) (by decide),
            EOut.andThen_ok]
          simp [Encoder.emit, wireTag, kindOf, valueBytes]
        · rw [show serializeInner (.hF32 b) ⟨.InList (kindOf (.hF32 b)) :: st, out⟩
              = (Encoder.specify_kind .F32 ⟨.InList .F32 :: st, out⟩).andThen
                  fun s1 => .ok () (Encoder.emit s1 (natBytesBE 4 b)) from rfl,
            specify_kind_inlist_scalar .F32 st out (by decide) (by decide),
            EOut.andThen_ok]
          simp [Encoder.emit, kindOf, valueBytes]
        · rw [show serializeInner (.hF32 b) ⟨.List (some name) len :: st, out⟩
              = (Encoder.specify_kind .F32 ⟨.List (some name) len :: st, out⟩).andThen
                  fun s1 => .ok () (Encoder.emit s1 (natBytesBE 4 b)) from rfl,
            specify_kind_pending_scalar .F32 name len st out (by decide) (by decide),
            EOut.andThen_ok]
          simp [Encoder.emit, kindOf, valueBytes]
      | hF64 b =>
        refine ⟨fun name st out => ?_, fun _ => ⟨fun st out => ?_, fun name len st out => ?_⟩⟩
        · rw [show serializeInner (.hF64 b) ⟨.InNamed (some name) :: st, out⟩
              = (Encoder.specify_kind .F64 ⟨.InNamed (some name) :: st, out⟩).andThen
                  fun s1 => .ok () (Encoder.emit s1 (natBytesBE 8 b)) from rfl,
            specify_kind_named_scalar .F64 name st out (by decide) (by decide),
            EOut.andThen_ok]
          simp [Encoder.emit, wireTag, kindOf, valueBytes]
        · rw [show serializeInner (.hF64 b) ⟨.InList (kindOf (.hF64 b)) :: st, out⟩
              = (Encoder.specify_kind .F64 ⟨.InList .F64 :: st, out⟩).andThen
                  fun s1 => .ok () (Encoder.emit s1 (natBytesBE 8 b)) from rfl,
            specify_kind_inlist_scalar .F64 st out (by decide) (by decide),
            EOut.andThen_ok]
          simp [Encoder.emit, kindOf, valueBytes]
        · rw [show serializeInner (.hF64 b) ⟨.List (some name) len :: st, out⟩
              = (Encoder.specify_kind .F64 ⟨.List (some name) len :: st, out⟩).andThen
                  fun s1 => .ok () (Encoder.emit s1 (natBytesBE 8 b)) from rfl,
            specify_kind_pending_scalar .F64 name len st out (by decide) (by decide),
            EOut.andThen_ok]
          simp [Encoder.emit, kindOf, valueBytes]
      | hStr s =>
        refine ⟨fun name st out => ?_, fun _ => ⟨fun st out => ?_, fun name len st out => ?_⟩⟩
        · rw [show serializeInner (.hStr s) ⟨.InNamed (some name) :: st, out⟩
              = (Encoder.specify_kind .String ⟨.InNamed (some name) :: st, out⟩).andThen
                  fun s1 => .ok () (Encoder.emit s1 (write_bare_string s)) from rfl,
            specify_kind_named_scalar .String name st out (by decide) (by decide),
            EOut.andThen_ok]
          simp [Encoder.emit, wireTag, kindOf, valueBytes]
        · rw [show serializeInner (.hStr s) ⟨.InList (kindOf (.hStr s)) :: st, out⟩
              = (Encoder.specify_kind .String ⟨.InList .String :: st, out⟩).andThen
                  fun s1 => .ok () (Encoder.emit s1 (write_bare_string s)) from rfl,
            specify_kind_inlist_scalar .String st out (by decide) (by decide),
            EOut.andThen_ok]
          simp [Encoder.emit, kindOf, valueBytes]
        · rw [show serializeInner (.hStr s) ⟨.List (some name) len :: st, out⟩
              = (Encoder.specify_kind .String ⟨.List (some name) len :: st, out⟩).andThen
                  fun s1 => .ok () (Encoder.emit s1 (write_bare_string s)) from rfl,
            specify_kind_pending_scalar .String name len st out (by decide) (by decide),
            EOut.andThen_ok]
          simp [Encoder.emit, kindOf, valueBytes, Kind.list_container]
      | hStruct fields =>
        have hszf : hflSize fields ≤ n := by
          simp only [hvSize] at hsz
          omega
        have hrtf : RTfields fields = true := by simpa [RTv] using hrt
        refine ⟨fun name st out => ?_, fun _ => ⟨fun st out => ?_, fun name len st out => ?_⟩⟩
        · rw [show serializeInner (.hStruct fields) ⟨.InNamed (some name) :: st, out⟩
              = (Encoder.specify_kind .Compound ⟨.InNamed (some name) :: st, out⟩).andThen
                  fun s1 => (serializeFields fields s1).andThen
                    fun s2 => Encoder.close_level s2 from rfl,
            specify_kind_named_compound name st out, EOut.andThen_ok,
            ihF fields hszf hrtf, EOut.andThen_ok, close_level_record]
          simp [wireTag, kindOf, valueBytes]
        · rw [show serializeInner (.hStruct fields) ⟨.InList (kindOf (.hStruct fields)) :: st, out⟩
              = (Encoder.specify_kind .Compound ⟨.InList .Compound :: st, out⟩).andThen
                  fun s1 => (serializeFields fields s1).andThen
                    fun s2 => Encoder.close_level s2 from rfl,
            specify_kind_inlist_compound st out, EOut.andThen_ok,
            ihF fields hszf hrtf, EOut.andThen_ok, close_level_record]
          simp [kindOf, valueBytes]
        · rw [show serializeInner (.hStruct fields) ⟨.List (some name) len :: st, out⟩
              = (Encoder.specify_kind .Compound ⟨.List (some name) len :: st, out⟩).andThen
                  fun s1 => (serializeFields fields s1).andThen
                    fun s2 => Encoder.close_level s2 from rfl,
            specify_kind_pending_compound name len st out, EOut.andThen_ok,
            ihF fields hszf hrtf, EOut.andThen_ok, close_level_record]
          simp [kindOf, valueBytes, Kind.list_container]
      | hSeq elems =>
        refine ⟨fun name st out => ?_, fun hkl => absurd hkl (by simp [kindOf, Kind.is_list])⟩
        rw [show serializeInner (.hSeq elems) ⟨.InNamed (some name) :: st, out⟩
            = (Encoder.open_list (intCast32 elems.length)
                ⟨.InNamed (some name) :: st, out⟩).andThen
                fun s1 => (serializeElems elems s1).andThen
                  fun s2 => Encoder.close_level s2 from rfl,
          open_list_named name _ st out, EOut.andThen_ok]
        cases elems with
        | nil =>
          rw [show serializeElems [] ⟨.List (some name) (intCast32 ([] : List HostValue).length) :: st, out⟩
              = .ok () ⟨.List (some name) (intCast32 ([] : List HostValue).length) :: st, out⟩ from rfl,
            EOut.andThen_ok, close_level_pending]
          simp [wireTag, seqElemKind, kindOf, valueBytes, elemsBytes, Kind.list_container]
        | cons e vs =>
          have hsze : hvSize e ≤ n := by
            simp only [hvSize, hvlSize] at hsz
            omega
          have hszvs : hvlSize vs ≤ n := by
            simp only [hvSize, hvlSize] at hsz
            omega
          have hrte : RTv e = true ∧ (kindOf e).is_list = false
              ∧ RTelems (kindOf e) vs = true := by
            simp only [RTv, seqElemKind, RTelems, Bool.and_eq_true, Bool.not_eq_true',
              decide_eq_true_eq] at hrt
            tauto
          obtain ⟨hrtE, hklE, hrtVs⟩ := hrte
          rw [show serializeElems (e :: vs) ⟨.List (some name) (intCast32 (e :: vs).length) :: st, out⟩
              = (serializeInner e ⟨.List (some name) (intCast32 (e :: vs).length) :: st, out⟩).andThen
                  fun s1 => serializeElems vs s1 from rfl,
            ((ihV e hsze hrtE).2 hklE).2 name (intCast32 (e :: vs).length) st out,
            EOut.andThen_ok,
            ihE (kindOf e) vs hszvs hrtVs, EOut.andThen_ok, close_level_inlist]
          simp [wireTag, seqElemKind, kindOf, valueBytes, elemsBytes]
    · intro k elems hsz hrt st out
      cases elems with
      | nil => simp [serializeElems, elemsBytes]
      | cons v vs =>
        have hszv : hvSize v ≤ n := by
          simp only [hvlSize] at hsz
          omega
        have hszvs : hvlSize vs ≤ n := by
          simp only [hvlSize] at hsz
          omega
        have hcomp : RTv v = true ∧ kindOf v = k ∧ (kindOf v).is_list = false
            ∧ RTelems k vs = true := by
          simp only [RTelems, Bool.and_eq_true, Bool.not_eq_true',
            decide_eq_true_eq] at hrt
          tauto
        obtain ⟨hrtV, hkV, hklV, hrtVs⟩ := hcomp
        subst hkV
        rw [show serializeElems (v :: vs) ⟨.InList (kindOf v) :: st, out⟩
            = (serializeInner v ⟨.InList (kindOf v) :: st, out⟩).andThen
                fun s1 => serializeElems vs s1 from rfl,
          ((ihV v hszv hrtV).2 hklV).1 st out, EOut.andThen_ok,
          ihE (kindOf v) vs hszvs hrtVs]
        simp [elemsBytes]
    · intro fs hsz hrt st out
      cases fs with
      | nil => simp [serializeFields, fieldsBytes]
      | cons f fs =>
        obtain ⟨n0, v⟩ := f
        have hszv : hvSize v ≤ n := by
          simp only [hflSize] at hsz
          omega
        have hszfs : hflSize fs ≤ n := by
          simp only [hflSize] at hsz
          omega
        have hcomp : RTv v = true ∧ RTfields fs = true := by
          simp only [RTfields, Bool.and_eq_true] at hrt
          tauto
        obtain ⟨hrtV, hrtFs⟩ := hcomp
        rw [show serializeFields ((n0, v) :: fs) ⟨.InNamed none :: st, out⟩
            = (Encoder.specify_name n0 ⟨.InNamed none :: st, out⟩).andThen
                fun s1 => (serializeInner v s1).andThen
                  fun s2 => serializeFields fs s2 from rfl,
          specify_name_unset n0 st out, EOut.andThen_ok,
          (ihV v hszv hrtV).1 n0 st out, EOut.andThen_ok,
          ihF fs hszfs hrtFs]
        simp [fieldsBytes]

theorem szVal_pos (v : HostValue) : 0 < szVal v := by
  cases v <;> simp [szVal]

theorem szSeq_pos (elems : List HostValue) : 0 < szSeq elems := by
  cases elems <;> simp [szSeq]

theorem szMap_pos (fs : List (List Nat × HostValue)) : 0 < szMap fs := by
  cases fs with
  | nil => simp [szMap]
  | cons f fs => obtain ⟨n, v⟩ := f; simp [szMap]

theorem intCast32_of_lt (n : Nat) (h : n < 2147483648) : intCast32 n = (n : Int) := by
  unfold intCast32 toSigned
  have h1 : n % 4294967296 = n := Nat.mod_eq_of_lt (by omega)
  rw [h1, if_pos (by norm_num; omega)]

theorem list_container_ne_End (k : Kind) : k.list_container ≠ .End := by
  cases k <;> decide

theorem tagIdByte_eq_zero_iff (k : Kind) : tagIdByte k = 0 ↔ k = .End := by
  cases k <;> decide

theorem wireTag_ne_End (v : HostValue) (h : RTv v = true) : wireTag v ≠ .End := by
  cases v <;> simp_all [RTv, wireTag, kindOf]
  exact list_container_ne_End _

theorem tagIdByte_wireTag_ne_zero (v : HostValue) (h : RTv v = true) :
    tagIdByte (wireTag v) ≠ 0 := by
  intro h0
  exact wireTag_ne_End v h ((tagIdByte_eq_zero_iff (wireTag v)).mp h0)

theorem decodeValue_list_arm (fuel : Nat) (etag : Nat) (len : Int) (tail : List Nat)
    (h1 : -2147483648 ≤ len) (h2 : len < 2147483648) :
    decodeValue (fuel + 1) 9 (etag :: (intBytesBE 4 len ++ tail))
      = dbind (decodeSeq fuel etag len 0 tail) fun q => .ok (.hSeq q.1, q.2) := by
  rw [show decodeValue (fuel + 1) 9 (etag :: (intBytesBE 4 len ++ tail))
      = dbind (readByte (etag :: (intBytesBE 4 len ++ tail))) (fun p =>
          dbind (readI32 p.2) fun q =>
            dbind (decodeSeq fuel p.1 q.1 0 q.2) fun r => .ok (.hSeq r.1, r.2)) from rfl]
  rw [show readByte (etag :: (intBytesBE 4 len ++ tail))
      = .ok (etag, intBytesBE 4 len ++ tail) from rfl, dbind_ok]
  rw [readI32_round len tail h1 h2, dbind_ok]

theorem decodeValue_bytearray_arm (fuel : Nat) (len : Int) (tail : List Nat)
    (h1 : -2147483648 ≤ len) (h2 : len < 2147483648) :
    decodeValue (fuel + 1) 7 (intBytesBE 4 len ++ tail)
      = dbind (decodeSeq fuel 1 len 0 tail) fun q => .ok (.hSeq q.1, q.2) := by
  rw [show decodeValue (fuel + 1) 7 (intBytesBE 4 len ++ tail)
      = dbind (readI32 (intBytesBE 4 len ++ tail)) (fun p =>
          dbind (decodeSeq fuel 1 p.1 0 p.2) fun q => .ok (.hSeq q.1, q.2)) from rfl]
  rw [readI32_round len tail h1 h2, dbind_ok]

theorem decodeValue_intarray_arm (fuel : Nat) (len : Int) (tail : List Nat)
    (h1 : -2147483648 ≤ len) (h2 : len < 2147483648) :
    decodeValue (fuel + 1) 11 (intBytesBE 4 len ++ tail)
      = dbind (decodeSeq fuel 3 len 0 tail) fun q => .ok (.hSeq q.1, q.2) := by
  rw [show decodeValue (fuel + 1) 11 (intBytesBE 4 len ++ tail)
      = dbind (readI32 (intBytesBE 4 len ++ tail)) (fun p =>
          dbind (decodeSeq fuel 3 p.1 0 p.2) fun q => .ok (.hSeq q.1, q.2)) from rfl]
  rw [readI32_round len tail h1 h2, dbind_ok]

theorem decodeValue_struct_arm (fuel : Nat) (tail : List Nat) :
    decodeValue (fuel + 1) 10 tail
      = dbind (decodeMapEntries fuel tail) fun p => .ok (.hStruct p.1, p.2) := rfl

theorem kindOf_ne_End_of_RT (v : HostValue) (h : RTv v = true) :
    kindOf v ≠ .End := by
  cases v <;> simp_all [RTv, kindOf]

theorem kindOf_not_array (v : HostValue) :
    kindOf v ≠ .I8Array ∧ kindOf v ≠ .I32Array ∧ kindOf v ≠ .I64Array := by
  cases v <;> simp [kindOf]

set_option maxRecDepth 4000 in
/-- The decoder reads back, from the exact bytes the encoder emits,
exactly the value that was encoded: as a tagged value, as a declared
number of sequence elements, and as a record's fields up to the `End`
byte — given fuel at least the structural bound `szVal`/`szSeq`/`szMap`. -/
theorem decode_spec : ∀ fuel : Nat,
    (∀ v rest, RTv v = true → szVal v ≤ fuel →
      decodeValue fuel (tagIdByte (wireTag v)) (valueBytes v ++ rest) = .ok (v, rest))
    ∧ (∀ k elems (current : Int) rest, RTelems k elems = true → szSeq elems ≤ fuel →
      decodeSeq fuel (tagIdByte k) (current + elems.length) current
          (elemsBytes elems ++ rest)
        = .ok (elems, rest))
    ∧ (∀ fs rest, RTfields fs = true → szMap fs ≤ fuel →
      decodeMapEntries fuel (fieldsBytes fs ++ 0 :: rest) = .ok (fs, rest)) := by
  intro fuel
  induction fuel with
  | zero =>
    refine ⟨fun v rest _ hsz => absurd hsz (by have := szVal_pos v; omega),
      fun k elems current rest _ hsz => absurd hsz (by have := szSeq_pos elems; omega),
      fun fs rest _ hsz => absurd hsz (by have := szMap_pos fs; omega)⟩
  | succ fuel ih =>
    obtain ⟨ihV, ihS, ihM⟩ := ih
    refine ⟨?_, ?_, ?_⟩
    · intro v rest hrt hsz
      cases v with
      | hBool b => exact absurd hrt (by simp [RTv])
      | hU8 w => exact absurd hrt (by simp [RTv])
      | hU16 w => exact absurd hrt (by simp [RTv])
      | hU32 w => exact absurd hrt (by simp [RTv])
      | hU64 w => exact absurd hrt (by simp [RTv])
      | hChar c => exact absurd hrt (by simp [RTv])
      | hBytes bs => exact absurd hrt (by simp [RTv])
      | hNone => exact absurd hrt (by simp [RTv])
      | hSome w => exact absurd hrt (by simp [RTv])
      | hUnit => exact absurd hrt (by simp [RTv])
      | hUnitStruct => exact absurd hrt (by simp [RTv])
      | hNewtypeStruct w => exact absurd hrt (by simp [RTv])
      | hUnitVariant => exact absurd hrt (by simp [RTv])
      | hNewtypeVariant w => exact absurd hrt (by simp [RTv])
      | hTupleVariant => exact absurd hrt (by simp [RTv])
      | hStructVariant => exact absurd hrt (by simp [RTv])
      | hTuple es => exact absurd hrt (by simp [RTv])
      | hMap ps => exact absurd hrt (by simp [RTv])
      | hI8 w =>
        obtain ⟨hb1, hb2⟩ : -128 ≤ w ∧ w < 128 := by simpa [RTv] using hrt
        rw [show tagIdByte (wireTag (.hI8 w)) = 1 from rfl,
          show valueBytes (.hI8 w) = intBytesBE 1 w from rfl,
          show decodeValue (fuel + 1) 1 (intBytesBE 1 w ++ rest)
            = dbind (readI8 (intBytesBE 1 w ++ rest))
                (fun p => .ok (.hI8 p.1, p.2)) from rfl,
          readI8_round w rest hb1 hb2, dbind_ok]
      | hI16 w =>
        obtain ⟨hb1, hb2⟩ : -32768 ≤ w ∧ w < 32768 := by simpa [RTv] using hrt
        rw [show tagIdByte (wireTag (.hI16 w)) = 2 from rfl,
          show valueBytes (.hI16 w) = intBytesBE 2 w from rfl,
          show decodeValue (fuel + 1) 2 (intBytesBE 2 w ++ rest)
            = dbind (readI16 (intBytesBE 2 w ++ rest))
                (fun p => .ok (.hI16 p.1, p.2)) from rfl,
          readI16_round w rest hb1 hb2, dbind_ok]
      | hI32 w =>
        obtain ⟨hb1, hb2⟩ : -2147483648 ≤ w ∧ w < 2147483648 := by
          simpa [RTv] using hrt
        rw [show tagIdByte (wireTag (.hI32 w)) = 3 from rfl,
          show valueBytes (.hI32 w) = intBytesBE 4 w from rfl,
          show decodeValue (fuel + 1) 3 (intBytesBE 4 w ++ rest)
            = dbind (readI32 (intBytesBE 4 w ++ rest))
                (fun p => .ok (.hI32 p.1, p.2)) from rfl,
          readI32_round w rest hb1 hb2, dbind_ok]
      | hI64 w =>
        obtain ⟨hb1, hb2⟩ :
            -9223372036854775808 ≤ w ∧ w < 9223372036854775808 := by
          simpa [RTv] using hrt
        rw [show tagIdByte (wireTag (.hI64 w)) = 4 from rfl,
          show valueBytes (.hI64 w) = intBytesBE 8 w from rfl,
          show decodeValue (fuel + 1) 4 (intBytesBE 8 w ++ rest)
            = dbind (readI64 (intBytesBE 8 w ++ rest))
                (fun p => .ok (.hI64 p.1, p.2)) from rfl,
          readI64_round w rest hb1 hb2, dbind_ok]
      | hF32 b =>
        have hb : b < 4294967296 := by simpa [RTv] using hrt
        rw [show tagIdByte (wireTag (.hF32 b)) = 5 from rfl,
          show valueBytes (.hF32 b) = natBytesBE 4 b from rfl,
          show decodeValue (fuel + 1) 5 (natBytesBE 4 b ++ rest)
            = dbind (readF32bits (natBytesBE 4 b ++ rest))
                (fun p => .ok (.hF32 p.1, p.2)) from rfl,
          readF32bits_round b rest hb, dbind_ok]
      | hF64 b =>
        have hb : b < 18446744073709551616 := by simpa [RTv] using hrt
        rw [show tagIdByte (wireTag (.hF64 b)) = 6 from rfl,
          show valueBytes (.hF64 b) = natBytesBE 8 b from rfl,
          show decodeValue (fuel + 1) 6 (natBytesBE 8 b ++ rest)
            = dbind (readF64bits (natBytesBE 8 b ++ rest))
                (fun p => .ok (.hF64 p.1, p.2)) from rfl,
          readF64bits_round b rest hb, dbind_ok]
      | hStr s =>
        obtain ⟨hu, hl⟩ : validUtf8 s = true ∧ s.length < 65536 := by
          simpa [RTv] using hrt
        rw [show tagIdByte (wireTag (.hStr s)) = 8 from rfl,
          show valueBytes (.hStr s) = write_bare_string s from rfl,
          show decodeValue (fuel + 1) 8 (write_bare_string s ++ rest)
            = dbind (read_bare_string (write_bare_string s ++ rest))
                (fun p => .ok (.hStr p.1, p.2)) from rfl,
          read_bare_string_round s rest hu hl, dbind_ok]
      | hStruct fields =>
        have hrtf : RTfields fields = true := by simpa [RTv] using hrt
        have hszf : szMap fields ≤ fuel := by
          simp only [szVal] at hsz
          omega
        have hb : valueBytes (.hStruct fields) ++ rest
            = fieldsBytes fields ++ (0 :: rest) := by
          simp [valueBytes]
        rw [show tagIdByte (wireTag (.hStruct fields)) = 10 from rfl, hb,
          decodeValue_struct_arm, ihM fields rest hrtf hszf, dbind_ok]
      | hSeq elems =>
        have hlen : elems.length < 2147483648 := by
          have h := hrt
          simp only [RTv, Bool.and_eq_true, decide_eq_true_eq] at h
          exact h.1
        have hrtE2 : RTelems (seqElemKind elems) elems = true := by
          have h := hrt
          simp only [RTv, Bool.and_eq_true] at h
          exact h.2
        cases elems with
        | nil =>
          have hf : 1 ≤ fuel := by
            simp only [szVal, szSeq] at hsz
            omega
          obtain ⟨f, rfl⟩ : ∃ f, fuel = f + 1 := ⟨fuel - 1, by omega⟩
          rw [show tagIdByte (wireTag (.hSeq ([] : List HostValue))) = 9 from rfl,
            show valueBytes (.hSeq ([] : List HostValue)) = 0 :: intBytesBE 4 0 from rfl,
            show (0 :: intBytesBE 4 0) ++ rest = 0 :: (intBytesBE 4 0 ++ rest) from rfl,
            decodeValue_list_arm (f + 1) 0 0 rest (by norm_num) (by norm_num),
            show decodeSeq (f + 1) 0 0 0 rest = .ok ([], rest) from rfl, dbind_ok]
        | cons e vs =>
          rw [show seqElemKind (e :: vs) = kindOf e from rfl] at hrtE2
          have hcomp : RTv e = true ∧ (kindOf e).is_list = false
              ∧ kindOf e ≠ Kind.I64 := by
            have h := hrtE2
            simp only [RTelems, Bool.and_eq_true, Bool.not_eq_true',
              decide_eq_true_eq] at h
            tauto
          obtain ⟨hrtv, hklv, hni64⟩ := hcomp
          have hszseq : szSeq (e :: vs) ≤ fuel := by
            simp only [szVal] at hsz
            omega
          have hbound1 : (-2147483648 : Int) ≤ ((e :: vs).length : Int) := by omega
          have hbound2 : ((e :: vs).length : Int) < 2147483648 := by omega
          cases hk : kindOf e with
          | End => exact absurd hk (kindOf_ne_End_of_RT e hrtv)
          | List => rw [hk] at hklv; exact absurd hklv (by decide)
          | I8Array => exact absurd hk (kindOf_not_array e).1
          | I32Array => exact absurd hk (kindOf_not_array e).2.1
          | I64Array => exact absurd hk (kindOf_not_array e).2.2
          | I64 => exact absurd hk hni64
          | I8 =>
            rw [hk] at hrtE2
            have htag : wireTag (.hSeq (e :: vs)) = Kind.I8Array := by
              simp [wireTag, seqElemKind, hk, Kind.list_container]
            have harm : valueBytes (.hSeq (e :: vs)) ++ rest
                = intBytesBE 4 ((e :: vs).length : Int)
                    ++ (elemsBytes (e :: vs) ++ rest) := by
              have hlen1 : vs.length + 1 < 2147483648 := by
                simp only [List.length_cons] at hlen
                omega
              simp [valueBytes, seqElemKind, hk, Kind.list_container]
              rw [intCast32_of_lt (vs.length + 1) hlen1]
              congr 1
            rw [htag, show tagIdByte Kind.I8Array = 7 from rfl, harm,
              decodeValue_bytearray_arm fuel _ _ hbound1 hbound2]
            have hseq := ihS Kind.I8 (e :: vs) 0 rest hrtE2 hszseq
            rw [zero_add, show tagIdByte Kind.I8 = 1 from rfl] at hseq
            rw [hseq, dbind_ok]
          | I32 =>
            rw [hk] at hrtE2
            have htag : wireTag (.hSeq (e :: vs)) = Kind.I32Array := by
              simp [wireTag, seqElemKind, hk, Kind.list_container]
            have harm : valueBytes (.hSeq (e :: vs)) ++ rest
                = intBytesBE 4 ((e :: vs).length : Int)
                    ++ (elemsBytes (e :: vs) ++ rest) := by
              have hlen1 : vs.length + 1 < 2147483648 := by
                simp only [List.length_cons] at hlen
                omega
              simp [valueBytes, seqElemKind, hk, Kind.list_container]
              rw [intCast32_of_lt (vs.length + 1) hlen1]
              congr 1
            rw [htag, show tagIdByte Kind.I32Array = 11 from rfl, harm,
              decodeValue_intarray_arm fuel _ _ hbound1 hbound2]
            have hseq := ihS Kind.I32 (e :: vs) 0 rest hrtE2 hszseq
            rw [zero_add, show tagIdByte Kind.I32 = 3 from rfl] at hseq
            rw [hseq, dbind_ok]
          | I16 =>
            rw [hk] at hrtE2
            have htag : wireTag (.hSeq (e :: vs)) = Kind.List := by
              simp [wireTag, seqElemKind, hk, Kind.list_container]
            have harm : valueBytes (.hSeq (e :: vs)) ++ rest
                = tagIdByte Kind.I16 :: (intBytesBE 4 ((e :: vs).length : Int)
                    ++ (elemsBytes (e :: vs) ++ rest)) := by
              have hlen1 : vs.length + 1 < 2147483648 := by
                simp only [List.length_cons] at hlen
                omega
              simp [valueBytes, seqElemKind, hk, Kind.list_container]
              rw [intCast32_of_lt (vs.length + 1) hlen1]
              congr 1
            rw [htag, show tagIdByte Kind.List = 9 from rfl, harm,
              decodeValue_list_arm fuel _ _ _ hbound1 hbound2]
            have hseq := ihS Kind.I16 (e :: vs) 0 rest hrtE2 hszseq
            rw [zero_add] at hseq
            rw [hseq, dbind_ok]
          | F32 =>
            rw [hk] at hrtE2
            have htag : wireTag (.hSeq (e :: vs)) = Kind.List := by
              simp [wireTag, seqElemKind, hk, Kind.list_container]
            have harm : valueBytes (.hSeq (e :: vs)) ++ rest
                = tagIdByte Kind.F32 :: (intBytesBE 4 ((e :: vs).length : Int)
                    ++ (elemsBytes (e :: vs) ++ rest)) := by
              have hlen1 : vs.length + 1 < 2147483648 := by
                simp only [List.length_cons] at hlen
                omega
              simp [valueBytes, seqElemKind, hk, Kind.list_container]
              rw [intCast32_of_lt (vs.length + 1) hlen1]
              congr 1
            rw [htag, show tagIdByte Kind.List = 9 from rfl, harm,
              decodeValue_list_arm fuel _ _ _ hbound1 hbound2]
            have hseq := ihS Kind.F32 (e :: vs) 0 rest hrtE2 hszseq
            rw [zero_add] at hseq
            rw [hseq, dbind_ok]
          | F64 =>
            rw [hk] at hrtE2
            have htag : wireTag (.hSeq (e :: vs)) = Kind.List := by
              simp [wireTag, seqElemKind, hk, Kind.list_container]
            have harm : valueBytes (.hSeq (e :: vs)) ++ rest
                = tagIdByte Kind.F64 :: (intBytesBE 4 ((e :: vs).length : Int)
                    ++ (elemsBytes (e :: vs) ++ rest)) := by
              have hlen1 : vs.length + 1 < 2147483648 := by
                simp only [List.length_cons] at hlen
                omega
              simp [valueBytes, seqElemKind, hk, Kind.list_container]
              rw [intCast32_of_lt (vs.length + 1) hlen1]
              congr 1
            rw [htag, show tagIdByte Kind.List = 9 from rfl, harm,
              decodeValue_list_arm fuel _ _ _ hbound1 hbound2]
            have hseq := ihS Kind.F64 (e :: vs) 0 rest hrtE2 hszseq
            rw [zero_add] at hseq
            rw [hseq, dbind_ok]
          | String =>
            rw [hk] at hrtE2
            have htag : wireTag (.hSeq (e :: vs)) = Kind.List := by
              simp [wireTag, seqElemKind, hk, Kind.list_container]
            have harm : valueBytes (.hSeq (e :: vs)) ++ rest
                = tagIdByte Kind.String :: (intBytesBE 4 ((e :: vs).length : Int)
                    ++ (elemsBytes (e :: vs) ++ rest)) := by
              have hlen1 : vs.length + 1 < 2147483648 := by
                simp only [List.length_cons] at hlen
                omega
              simp [valueBytes, seqElemKind, hk, Kind.list_container]
              rw [intCast32_of_lt (vs.length + 1) hlen1]
              congr 1
            rw [htag, show tagIdByte Kind.List = 9 from rfl, harm,
              decodeValue_list_arm fuel _ _ _ hbound1 hbound2]
            have hseq := ihS Kind.String (e :: vs) 0 rest hrtE2 hszseq
            rw [zero_add] at hseq
            rw [hseq, dbind_ok]
          | Compound =>
            rw [hk] at hrtE2
            have htag : wireTag (.hSeq (e :: vs)) = Kind.List := by
              simp [wireTag, seqElemKind, hk, Kind.list_container]
            have harm : valueBytes (.hSeq (e :: vs)) ++ rest
                = tagIdByte Kind.Compound :: (intBytesBE 4 ((e :: vs).length : Int)
                    ++ (elemsBytes (e :: vs) ++ rest)) := by
              have hlen1 : vs.length + 1 < 2147483648 := by
                simp only [List.length_cons] at hlen
                omega
              simp [valueBytes, seqElemKind, hk, Kind.list_container]
              rw [intCast32_of_lt (vs.length + 1) hlen1]
              congr 1
            rw [htag, show tagIdByte Kind.List = 9 from rfl, harm,
              decodeValue_list_arm fuel _ _ _ hbound1 hbound2]
            have hseq := ihS Kind.Compound (e :: vs) 0 rest hrtE2 hszseq
            rw [zero_add] at hseq
            rw [hseq, dbind_ok]
    · intro k elems current rest hrt hsz
      cases elems with
      | nil =>
        rw [show elemsBytes ([] : List HostValue) ++ rest = rest from by
          simp [elemsBytes]]
        rw [decodeSeq]
        simp
      | cons v vs =>
        have hcomp : RTv v = true ∧ kindOf v = k ∧ (kindOf v).is_list = false
            ∧ RTelems k vs = true := by
          have h := hrt
          simp only [RTelems, Bool.and_eq_true, Bool.not_eq_true',
            decide_eq_true_eq] at h
          tauto
        obtain ⟨hrtV, hkV, hklV, hrtVs⟩ := hcomp
        have hszv : szVal v ≤ fuel := by
          simp only [szSeq] at hsz
          omega
        have hszvs : szSeq vs ≤ fuel := by
          simp only [szSeq] at hsz
          omega
        have hne : current ≠ current + ((v :: vs).length : Int) := by
          simp only [List.length_cons]
          push_cast
          omega
        rw [decodeSeq, if_neg hne]
        rw [show elemsBytes (v :: vs) ++ rest
            = valueBytes v ++ (elemsBytes vs ++ rest) from by
          simp [elemsBytes]]
        have hdv := ihV v (elemsBytes vs ++ rest) hrtV hszv
        rw [wireTag_eq_kindOf v hklV, hkV] at hdv
        rw [hdv]
        simp only [dbind_ok]
        have hds := ihS k vs (current + 1) rest hrtVs hszvs
        have harith : current + ((v :: vs).length : Int)
            = (current + 1) + (vs.length : Int) := by
          simp only [List.length_cons]
          push_cast
          ring
        rw [harith, hds]
        simp only [dbind_ok]
    · intro fs rest hrt hsz
      cases fs with
      | nil =>
        rw [show fieldsBytes ([] : List (List Nat × HostValue)) ++ 0 :: rest
            = 0 :: rest from by simp [fieldsBytes]]
        rw [decodeMapEntries]
        simp [readByte]
      | cons f fs =>
        obtain ⟨n0, v⟩ := f
        have hcomp : validUtf8 n0 = true ∧ n0.length < 65536
            ∧ RTv v = true ∧ RTfields fs = true := by
          have h := hrt
          simp only [RTfields, Bool.and_eq_true, decide_eq_true_eq] at h
          tauto
        obtain ⟨hu, hlen0, hrtV, hrtFs⟩ := hcomp
        have hszv : szVal v ≤ fuel := by
          simp only [szMap] at hsz
          omega
        have hszfs : szMap fs ≤ fuel := by
          simp only [szMap] at hsz
          omega
        have hbytes : fieldsBytes ((n0, v) :: fs) ++ 0 :: rest
            = tagIdByte (wireTag v)
                :: (write_bare_string n0
                  ++ (valueBytes v ++ (fieldsBytes fs ++ 0 :: rest))) := by
          simp [fieldsBytes]
        rw [hbytes, decodeMapEntries]
        simp only [readByte, dbind_ok]
        rw [if_neg (tagIdByte_wireTag_ne_zero v hrtV)]
        rw [read_bare_string_round n0 _ hu hlen0]
        simp only [dbind_ok]
        rw [ihV v _ hrtV hszv]
        simp only [dbind_ok]
        rw [ihM fs rest hrtFs hszfs]
        simp only [dbind_ok]

theorem one_le_valueBytes_length (v : HostValue) (h : RTv v = true) :
    1 ≤ (valueBytes v).length := by
  cases v <;>
    simp_all [RTv, valueBytes, write_bare_string, intBytesBE, List.length_append] <;>
    omega

/-- The decode fuel bound is at most twice the byte length of the
payload: every fuel decrement pays for at least half a byte of input. -/
theorem sz_le_bytes : ∀ n : Nat,
    (∀ v, hvSize v ≤ n → RTv v = true → szVal v ≤ 2 * (valueBytes v).length + 1)
    ∧ (∀ k elems, hvlSize elems ≤ n → RTelems k elems = true →
        szSeq elems ≤ 2 * (elemsBytes elems).length + 2)
    ∧ (∀ fs, hflSize fs ≤ n → RTfields fs = true →
        szMap fs ≤ 2 * (fieldsBytes fs).length + 2) := by
  intro n
  induction n with
  | zero =>
    refine ⟨fun v hsz _ => absurd hsz (by have := hvSize_pos v; omega), ?_, ?_⟩
    · intro k elems hsz _
      cases elems with
      | nil => simp [szSeq, elemsBytes]
      | cons v vs =>
        exfalso
        have := hvSize_pos v
        simp [hvlSize] at hsz
    · intro fs hsz _
      cases fs with
      | nil => simp [szMap, fieldsBytes]
      | cons f fs =>
        exfalso
        obtain ⟨n0, v⟩ := f
        have := hvSize_pos v
        simp [hflSize] at hsz
  | succ n ih =>
    obtain ⟨ihV, ihE, ihF⟩ := ih
    refine ⟨?_, ?_, ?_⟩
    · intro v hsz hrt
      cases v
      case hSeq elems =>
        have hrtE : RTelems (seqElemKind elems) elems = true := by
          have h := hrt
          simp only [RTv, Bool.and_eq_true] at h
          exact h.2
        have h := ihE (seqElemKind elems) elems
          (by simp only [hvSize] at hsz; omega) hrtE
        simp only [szVal, valueBytes]
        by_cases hc : (seqElemKind elems).list_container = Kind.List <;>
          simp [hc, List.length_append, intBytesBE] <;> omega
      case hStruct fields =>
        have hrtf : RTfields fields = true := by simpa [RTv] using hrt
        have h := ihF fields (by simp only [hvSize] at hsz; omega) hrtf
        simp only [szVal, valueBytes]
        simp [List.length_append]
        omega
      all_goals simp only [szVal]; omega
    · intro k elems hsz hrt
      cases elems with
      | nil => simp [szSeq, elemsBytes]
      | cons v vs =>
        have hcomp : RTv v = true ∧ RTelems k vs = true := by
          have h := hrt
          simp only [RTelems, Bool.and_eq_true] at h
          tauto
        obtain ⟨hrtV, hrtVs⟩ := hcomp
        have hv := ihV v (by simp only [hvlSize] at hsz; omega) hrtV
        have hvs := ihE k vs (by simp only [hvlSize] at hsz; omega) hrtVs
        have h1 := one_le_valueBytes_length v hrtV
        simp only [szSeq, elemsBytes, List.length_append]
        omega
    · intro fs hsz hrt
      cases fs with
      | nil => simp [szMap, fieldsBytes]
      | cons f fs =>
        obtain ⟨n0, v⟩ := f
        have hcomp : RTv v = true ∧ RTfields fs = true := by
          have h := hrt
          simp only [RTfields, Bool.and_eq_true] at h
          tauto
        obtain ⟨hrtV, hrtFs⟩ := hcomp
        have hv := ihV v (by simp only [hflSize] at hsz; omega) hrtV
        have hfs := ihF fs (by simp only [hflSize] at hsz; omega) hrtFs
        simp only [szMap, fieldsBytes, List.length_append, List.length_cons,
          write_bare_string, natBytesBE_length]
        omega

/-! ## Claim theorems -/

/-- C2: encoding the single-field record with field `name` holding the
string `Bananrama`, as the root with empty root name, produces exactly
`0A 00 00`, `08 00 04 'name' 00 09 'Bananrama'`, `00` — byte for byte. -/
theorem c2_worked_example :
    outBytes (to_writer
        (.hStruct [([110, 97, 109, 101],
          .hStr [66, 97, 110, 97, 110, 114, 97, 109, 97])]) (some []))
      = some [0x0A, 0x00, 0x00,
              0x08, 0x00, 0x04, 110, 97, 109, 101,
              0x00, 0x09, 66, 97, 110, 97, 110, 114, 97, 109, 97,
              0x00] := by
  rfl

/-- C3 counterexample: a top-level map is not a record, yet encoding it
fails with `UnrepresentableType("map")`, not with the claimed
`NoRootCompound`. -/
theorem c3_counterexample :
    to_writer (.hMap []) none = .err (.UnrepresentableType "map") (Encoder.new none)
      ∧ Error.UnrepresentableType "map" ≠ Error.NoRootCompound := by
  exact ⟨rfl, by decide⟩

/-- C3 amended: decoding a stream whose first byte is any byte other
than `0x0a` fails with `NoRootCompound` (and total decoding never
panics); encoding any top-level value that is neither record-shaped nor
a map fails with `NoRootCompound`; a top-level map instead fails with
`UnrepresentableType("map")`. -/
theorem c3_root_contract (b : Nat) (bytes : List Nat) (v : HostValue)
    (header : Option (List Nat)) (pairs : List (HostValue × HostValue)) :
    (b < 256 → b ≠ 10 → from_reader (b :: bytes) = .error .NoRootCompound)
    ∧ (isTopLevelRecord v = false → isMapValue v = false →
        to_writer v header = .err .NoRootCompound (Encoder.new header))
    ∧ to_writer (.hMap pairs) header
        = .err (.UnrepresentableType "map") (Encoder.new header) := by
  refine ⟨fun hb hb10 => ?_, fun h1 h2 => ?_, rfl⟩
  · have : toSigned 1 b ≠ 10 := by
      unfold toSigned
      split <;> omega
    simp [from_reader, readI8, readByte, this]
  · cases v <;> simp_all [isTopLevelRecord, isMapValue, to_writer, serializeOuter]

/-- C3 witness: the decode direction at the single byte stream `0x01`
(the spec's own rejection example) and the encode direction at a bare
boolean. -/
theorem c3_witness :
    from_reader [1] = .error .NoRootCompound
      ∧ to_writer (.hBool true) none = .err .NoRootCompound (Encoder.new none) :=
  ⟨(c3_root_contract 1 [] (.hBool true) none []).1 (by decide) (by decide),
   (c3_root_contract 1 [] (.hBool true) none []).2.1 (by decide) (by decide)⟩

/-- C4: decoding a boolean from an `I8`-tagged field maps payload 0 to
`false`, payload 1 to `true`, and any other payload byte `b` to
`NonBooleanByte` naming `b` (as the signed byte the code read); a known
non-`I8` tag fails with `UnexpectedTag` naming the actual kind and the
expected `I8`. -/
theorem c4_bool_decoding (b tag : Nat) (bytes : List Nat) (k : Kind) :
    deserialize_bool 1 (0 :: bytes) = .ok (false, bytes)
    ∧ deserialize_bool 1 (1 :: bytes) = .ok (true, bytes)
    ∧ (b < 256 → b ≠ 0 → b ≠ 1 →
        deserialize_bool 1 (b :: bytes) = .error (.NonBooleanByte (toSigned 1 b)))
    ∧ (tag ≠ 1 → Kind.from_id (toSigned 1 tag) = some k →
        deserialize_bool tag bytes = .error (.UnexpectedTag k .I8)) := by
  refine ⟨?_, ?_, fun hb h0 h1 => ?_, fun ht hk => ?_⟩
  · simp [deserialize_bool, readI8, readByte, toSigned]
  · simp [deserialize_bool, readI8, readByte, toSigned]
  · have e0 : toSigned 1 b ≠ 0 := by unfold toSigned; split <;> omega
    have e1 : toSigned 1 b ≠ 1 := by unfold toSigned; split <;> omega
    simp [deserialize_bool, readI8, readByte, e0, e1]
  · simp [deserialize_bool, ht, hk]

/-- C4 witness: payload bytes 0, 1 and 2 under the `I8` tag, and the
`I32` tag where a boolean was requested. -/
theorem c4_witness :
    deserialize_bool 1 [0] = .ok (false, [])
    ∧ deserialize_bool 1 [1] = .ok (true, [])
    ∧ deserialize_bool 1 [2] = .error (.NonBooleanByte 2)
    ∧ deserialize_bool 3 [0] = .error (.UnexpectedTag .I32 .I8) := by
  refine ⟨(c4_bool_decoding 2 3 [] .I32).1, (c4_bool_decoding 2 3 [] .I32).2.1, ?_, ?_⟩
  · have h := (c4_bool_decoding 2 3 [] .I32).2.2.1 (by decide) (by decide) (by decide)
    simpa [toSigned] using h
  · exact (c4_bool_decoding 2 3 [0] .I32).2.2.2 (by decide) (by decide)

/-- C5: inside an already-opened homogeneous sequence remembering kind
`k`, committing an element of a different (non-list) kind fails with the
heterogeneous-list error naming the original kind and the new kind; and
opening a nested list while the remembered kind is not list-like fails
naming the original kind and `List`. In both cases the Rust `pop` has
already removed the frame when the error returns. -/
theorem c5_heterogeneous_list (k tag : Kind) (st : List LevelState)
    (out : List Nat) (len : Int) :
    (tag.is_list = false → k ≠ tag →
      Encoder.specify_kind tag ⟨.InList k :: st, out⟩
        = .err (.HeterogenousList k tag) ⟨st, out⟩)
    ∧ (k.is_list = false →
      Encoder.open_list len ⟨.InList k :: st, out⟩
        = .err (.HeterogenousList k .List) ⟨st, out⟩) := by
  constructor
  · intro hlist hne
    simp [Encoder.specify_kind, hlist, hne]
  · intro hk
    simp [Encoder.open_list, hk]

/-- C5 witness: a list that remembered `I8` receiving an `I16` element,
and a list that remembered `F32` receiving a nested list. -/
theorem c5_witness :
    Encoder.specify_kind .I16 ⟨[.InList .I8], []⟩
      = .err (.HeterogenousList .I8 .I16) ⟨[], []⟩
    ∧ Encoder.open_list 2 ⟨[.InList .F32], []⟩
      = .err (.HeterogenousList .F32 .List) ⟨[], []⟩ :=
  ⟨(c5_heterogeneous_list .I8 .I16 [] [] 2).1 (by decide) (by decide),
   (c5_heterogeneous_list .F32 .I16 [] [] 2).2 (by decide)⟩

/-- C6: the encoder frames a list of `i64` as the `I64Array` container
(tag 12), but `InnerDecoder::deserialize` has no arm for tag 12 and
fails with `UnknownTag(12)` instead of reading a 4-byte length and that
many 8-byte elements — the decoder cannot read the encoder's own
output. -/
theorem c6_i64array_decode_gap :
    outBytes (to_writer (.hStruct [([97], .hSeq [.hI64 5])]) (some []))
      = some [10, 0, 0, 12, 0, 1, 97, 0, 0, 0, 1, 0, 0, 0, 0, 0, 0, 0, 5, 0]
    ∧ from_reader [10, 0, 0, 12, 0, 1, 97, 0, 0, 0, 1, 0, 0, 0, 0, 0, 0, 0, 5, 0]
      = .error (.UnknownTag 12) := by
  exact ⟨rfl, rfl⟩

/-- C7: `From<io::Error>` maps exactly the `UnexpectedEof` kind to the
distinct `IncompleteNbtValue` and every other kind to `Io`; the two
images never coincide. -/
theorem c7_io_error_classification (k : IoErrorKind) :
    (k = .UnexpectedEof → Error.fromIo k = .IncompleteNbtValue)
    ∧ (k ≠ .UnexpectedEof → Error.fromIo k = .Io k)
    ∧ (∀ k2 : IoErrorKind, Error.Io k2 ≠ .IncompleteNbtValue) := by
  refine ⟨fun h => ?_, fun h => ?_, fun k2 => by simp⟩
  · simp [Error.fromIo, h]
  · simp [Error.fromIo, h]

/-- C7 witness: the end-of-file kind and a representative other kind. -/
theorem c7_witness :
    Error.fromIo .UnexpectedEof = .IncompleteNbtValue
    ∧ Error.fromIo .TimedOut = .Io .TimedOut :=
  ⟨(c7_io_error_classification .UnexpectedEof).1 rfl,
   (c7_io_error_classification .TimedOut).2.1 (by decide)⟩

/-- C8 counterexample: encoding a raw byte blob fails with an
unrepresentable-type error naming `u8` (the element type), not the byte
blob type itself, so the error does not name the offending type. -/
theorem c8_counterexample :
    serializeInner (.hBytes []) (Encoder.new none)
      = .err (.UnrepresentableType "u8") (Encoder.new none)
    ∧ serializeInner (.hBytes []) (Encoder.new none)
      ≠ .err (.UnrepresentableType "bytes") (Encoder.new none) := by
  exact ⟨rfl, by decide⟩

/-- C8 amended: every unrepresentable host type — unsigned integers of
any width, characters, byte blobs, bare unit, tuples, all
enumerated/tagged-union variant forms, and maps — fails immediately with
`UnrepresentableType` naming the offending type, except that a byte blob
reports its element type `u8`; the encoder state (and so the output) is
left untouched. -/
theorem c8_unrepresentable_types (s : EncState) (n c : Nat) (bs : List Nat)
    (v : HostValue) (es : List HostValue) (ps : List (HostValue × HostValue)) :
    serializeInner (.hU8 n) s = .err (.UnrepresentableType "u8") s
    ∧ serializeInner (.hU16 n) s = .err (.UnrepresentableType "u16") s
    ∧ serializeInner (.hU32 n) s = .err (.UnrepresentableType "u32") s
    ∧ serializeInner (.hU64 n) s = .err (.UnrepresentableType "u64") s
    ∧ serializeInner (.hChar c) s = .err (.UnrepresentableType "char") s
    ∧ serializeInner (.hBytes bs) s = .err (.UnrepresentableType "u8") s
    ∧ serializeInner .hUnit s = .err (.UnrepresentableType "unit") s
    ∧ serializeInner (.hTuple es) s = .err (.UnrepresentableType "tuple") s
    ∧ serializeInner .hUnitVariant s = .err (.UnrepresentableType "unit variant") s
    ∧ serializeInner (.hNewtypeVariant v) s
        = .err (.UnrepresentableType "newtype variant") s
    ∧ serializeInner .hTupleVariant s = .err (.UnrepresentableType "tuple variant") s
    ∧ serializeInner .hStructVariant s
        = .err (.UnrepresentableType "struct variant") s
    ∧ serializeInner (.hMap ps) s = .err (.UnrepresentableType "map") s := by
  refine ⟨?_, ?_, ?_, ?_, ?_, ?_, ?_, ?_, ?_, ?_, ?_, ?_, ?_⟩ <;> rfl

/-- C9 counterexample: with the in-homogeneous-sequence frame (`InList`)
on top, `close_level` pops it and commits nothing — had it first
committed a synthetic `End` tag as the claim states, the call would
instead have failed with the heterogeneity error that `specify_kind End`
produces on that very state. -/
theorem c9_counterexample :
    Encoder.close_level ⟨[.InList .I32, .InNamed none], []⟩
      = .ok () ⟨[.InNamed none], []⟩
    ∧ Encoder.specify_kind .End ⟨[.InList .I32, .InNamed none], []⟩
      = .err (.HeterogenousList .I32 .End) ⟨[.InNamed none], []⟩ := by
  exact ⟨rfl, rfl⟩

/-- C9 amended: the synthetic `End` commit in `close_level` happens when
the top frame is the pending-sequence frame (`List`: a sequence whose
element kind was never discovered), writing the generic list header with
`End` as element kind; popping an in-homogeneous-sequence frame
(`InList`) commits nothing and writes no byte; popping the record frame
panics when its pending field name is still set and otherwise writes the
single `0x00` terminator; a pending-sequence frame with no name panics
(`unimplemented!`). -/
theorem c9_close_level (k : Kind) (nm : List Nat) (len : Int)
    (st : List LevelState) (out : List Nat) :
    Encoder.close_level ⟨.InList k :: st, out⟩ = .ok () ⟨st, out⟩
    ∧ Encoder.close_level ⟨.InNamed (some nm) :: st, out⟩
        = .panic "key name specified without value"
    ∧ Encoder.close_level ⟨.InNamed none :: st, out⟩ = .ok () ⟨st, out ++ [0]⟩
    ∧ Encoder.close_level ⟨.List (some nm) len :: st, out⟩
        = .ok () ⟨.InNamed none :: st,
            out ++ [9] ++ write_bare_string nm ++ [0] ++ intBytesBE 4 len⟩
    ∧ Encoder.close_level ⟨.List none len :: st, out⟩ = .panic "not implemented" := by
  refine ⟨rfl, rfl, rfl, ?_, rfl⟩
  simp [Encoder.close_level, Encoder.specify_kind, LevelState.is_list,
    Kind.is_list, Kind.list_container, Kind.to_id, EOut.andThen]

/-- Negative declared sequence lengths never let the cursor terminate
normally: `current` starts at 0 and only ever grows, so it never equals
a negative `length`. -/
theorem decodeSeq_neg_len_no_ok (fuel : Nat) :
    ∀ (tag : Nat) (len current : Int) (bytes : List Nat),
      len < 0 → 0 ≤ current →
      ∀ r, decodeSeq fuel tag len current bytes ≠ .ok r := by
  induction fuel with
  | zero => intro tag len current bytes _ _ r h; exact absurd h (by simp [decodeSeq])
  | succ fuel ih =>
    intro tag len current bytes hlen hcur r h
    have hne : current ≠ len := by omega
    rw [decodeSeq, if_neg hne] at h
    cases hv : decodeValue fuel tag bytes with
    | error e => simp [hv] at h
    | ok p =>
      simp only [hv, dbind_ok] at h
      cases hs : decodeSeq fuel tag len (current + 1) p.2 with
      | error e => simp [hs] at h
      | ok q => exact ih tag len (current + 1) p.2 hlen (by omega) q hs

/-- On a stream of bare `I8` elements a negative declared length drives
the cursor to exhaust the stream and fail with `IncompleteNbtValue`. -/
theorem decodeSeq_neg_len_exhausts :
    ∀ (bytes : List Nat) (fuel : Nat) (len current : Int),
      len < 0 → 0 ≤ current → bytes.length + 2 ≤ fuel →
      decodeSeq fuel 1 len current bytes = .error .IncompleteNbtValue := by
  intro bytes
  induction bytes with
  | nil =>
    intro fuel len current hlen hcur hfuel
    match fuel, hfuel with
    | f + 2, _ =>
      have hne : current ≠ len := by omega
      rw [decodeSeq, if_neg hne]
      simp [decodeValue, readI8, readByte]
  | cons b rest ih =>
    intro fuel len current hlen hcur hfuel
    match fuel, hfuel with
    | f + 1, hfuel =>
      have hne : current ≠ len := by omega
      have hf : rest.length + 2 ≤ f := by
        simp only [List.length_cons] at hfuel
        omega
      obtain ⟨g, rfl⟩ : ∃ g, f = g + 1 := ⟨f - 1, by omega⟩
      rw [decodeSeq, if_neg hne]
      have hdv : decodeValue (g + 1) 1 (b :: rest)
          = .ok (.hI8 (toSigned 1 b), rest) := by
        simp [decodeValue, readI8, readByte]
      simp only [hdv, dbind_ok]
      rw [ih (g + 1) len (current + 1) hlen (by omega) hf, dbind_error]

/-- C10: for a sequence whose declared 4-byte length is negative the
cursor's `current == length` exit is unreachable, so decoding never
returns a sequence (empty or otherwise); on a stream of `I8` elements it
reads elements until the stream is exhausted and ends in the
incomplete-value error. -/
theorem c10_negative_length (fuel : Nat) (tag : Nat) (len current : Int)
    (bytes : List Nat) :
    (len < 0 → 0 ≤ current →
      ∀ r, decodeSeq fuel tag len current bytes ≠ .ok r)
    ∧ (len < 0 → 0 ≤ current → bytes.length + 2 ≤ fuel →
      decodeSeq fuel 1 len current bytes = .error .IncompleteNbtValue) :=
  ⟨decodeSeq_neg_len_no_ok fuel tag len current bytes,
   fun h1 h2 h3 => decodeSeq_neg_len_exhausts bytes fuel len current h1 h2 h3⟩

/-- C10 witness: declared length −1 over a three-byte `I8` stream. -/
theorem c10_witness :
    (∀ r, decodeSeq 9 1 (-1) 0 [5, 6, 7] ≠ .ok r)
    ∧ decodeSeq 9 1 (-1) 0 [5, 6, 7] = .error .IncompleteNbtValue :=
  ⟨(c10_negative_length 9 1 (-1) 0 [5, 6, 7]).1 (by decide) (by decide),
   (c10_negative_length 9 1 (-1) 0 [5, 6, 7]).2 (by decide) (by decide) (by decide)⟩

/-- C1 counterexample: a record holding a homogeneous list of `i64`
encodes (successfully) under the `I64Array` tag 12, and decoding those
very bytes fails with `UnknownTag 12` — so `decode (encode v) = v` fails
at this `v`. -/
theorem c1_counterexample :
    outBytes (to_writer (.hStruct [([108], .hSeq [.hI64 7])]) (some []))
      = some [10, 0, 0, 12, 0, 1, 108, 0, 0, 0, 1, 0, 0, 0, 0, 0, 0, 0, 7, 0]
    ∧ from_reader [10, 0, 0, 12, 0, 1, 108, 0, 0, 0, 1, 0, 0, 0, 0, 0, 0, 0, 7, 0]
      = .error (.UnknownTag 12)
    ∧ (Except.error (Error.UnknownTag 12) : Except Error HostValue)
      ≠ .ok (.hStruct [([108], .hSeq [.hI64 7])]) := by
  refine ⟨rfl, rfl, by simp⟩

/-- C1 amended: for every root record built of in-range supported
primitives, valid UTF-8 strings and names of at most 65535 bytes, nested
records, and homogeneous lists/arrays shorter than 2^31 whose elements
are neither lists nor `i64` (the two encoder/decoder gaps), decoding the
encoding yields the record back exactly: `from_reader (to_writer v) = v`. -/
theorem c1_round_trip (fs : List (List Nat × HostValue)) (h : RTfields fs = true) :
    outBytes (to_writer (.hStruct fs) (some [])) = some (encodedDoc fs)
    ∧ from_reader (encodedDoc fs) = .ok (.hStruct fs) := by
  constructor
  · have henc := (encode_spec (hflSize fs)).2.2 fs le_rfl h
      [LevelState.InNamed none] [10, 0, 0]
    rw [show to_writer (.hStruct fs) (some [])
        = (Encoder.specify_kind .Compound ⟨[.InNamed (some [])], []⟩).andThen
            (fun s1 => (serializeFields fs s1).andThen
              fun s2 => Encoder.close_level s2) from rfl]
    rw [show Encoder.specify_kind .Compound ⟨[.InNamed (some [])], []⟩
        = .ok () ⟨[.InNamed none, .InNamed none], [10, 0, 0]⟩ from rfl]
    rw [EOut.andThen_ok, henc, EOut.andThen_ok, close_level_record]
    simp [outBytes, encodedDoc]
  · have hb := (sz_le_bytes (hflSize fs)).2.2 fs le_rfl h
    have hfuel : szMap fs ≤ 2 * (encodedDoc fs).length + 2 := by
      simp only [encodedDoc, List.length_append, List.length_cons] at *
      omega
    have hd := (decode_spec (2 * (encodedDoc fs).length + 2)).2.2 fs [] h hfuel
    rw [show from_reader (encodedDoc fs)
        = dbind (read_bare_string ((([0, 0] : List Nat) ++ fieldsBytes fs) ++ [0]))
            (fun q => dbind (decodeMapEntries (2 * (encodedDoc fs).length + 2) q.2)
              fun r => .ok (.hStruct r.1)) from rfl]
    rw [show (([0, 0] : List Nat) ++ fieldsBytes fs) ++ [0]
        = write_bare_string [] ++ (fieldsBytes fs ++ 0 :: []) from by
      simp [write_bare_string, natBytesBE]]
    rw [read_bare_string_round [] _ rfl (by simp)]
    simp only [dbind_ok]
    rw [hd]
    simp only [dbind_ok]

/-- C1 witness: a concrete record with an `i8`, a string, an `i32`
array, a nested record holding an `f64`, and an empty list round-trips
byte-exactly. -/
theorem c1_witness :
    RTfields [([97], .hI8 1), ([98], .hStr [104, 105]),
      ([99], .hSeq [.hI32 5, .hI32 (-7)]),
      ([100], .hStruct [([101], .hF64 42)]), ([102], .hSeq [])] = true
    ∧ (outBytes (to_writer (.hStruct [([97], .hI8 1), ([98], .hStr [104, 105]),
          ([99], .hSeq [.hI32 5, .hI32 (-7)]),
          ([100], .hStruct [([101], .hF64 42)]), ([102], .hSeq [])]) (some []))
        = some (encodedDoc [([97], .hI8 1), ([98], .hStr [104, 105]),
            ([99], .hSeq [.hI32 5, .hI32 (-7)]),
            ([100], .hStruct [([101], .hF64 42)]), ([102], .hSeq [])])
      ∧ from_reader (encodedDoc [([97], .hI8 1), ([98], .hStr [104, 105]),
            ([99], .hSeq [.hI32 5, .hI32 (-7)]),
            ([100], .hStruct [([101], .hF64 42)]), ([102], .hSeq [])])
        = .ok (.hStruct [([97], .hI8 1), ([98], .hStr [104, 105]),
            ([99], .hSeq [.hI32 5, .hI32 (-7)]),
            ([100], .hStruct [([101], .hF64 42)]), ([102], .hSeq [])])) :=
  ⟨by decide, c1_round_trip _ (by decide)⟩

end NbtSerde
